import Mathlib

/-!
Formal model of the streaming tweet-collection pipeline of the
urban-land-use-analysis repository (`src/tweet_collector.py`, `src/utils.py`).

Python values produced by JSON deserialization are embedded as the inductive
type `PyVal` (assoc-list dictionaries, lists, strings, integers, booleans,
`None`).  Fallible Python operations (attribute access on non-dicts, `int()`
on non-numeric strings, item access) are embedded as `Except PyErr`
computations; Python control flow that cannot raise is embedded as total
functions.  File I/O is modelled by an explicit list of CSV lines plus an
oracle `writeOk : Nat -> Bool` deciding whether the i-th `to_csv` append
attempt succeeds.  Printing, `time.sleep`, `gc.collect`, and the
`MemoryError` best-effort handler of `run_pipeline_streaming` are not
modelled: they do not affect the data flow any theorem below is about.
-/

/-- Embedding of a deserialized Python/JSON value.  `null` is Python `None`.
Dictionaries are assoc lists; all dictionaries constructed in this file have
distinct keys, and lookup takes the first binding. -/
inductive PyVal where
  | null
  | bool (b : Bool)
  | int (n : Int)
  | str (s : String)
  | list (xs : List PyVal)
  | dict (kvs : List (String × PyVal))

/-- Python exception classes that the embedded code can raise. -/
inductive PyErr where
  | attributeError
  | typeError
  | valueError
  | keyError
deriving DecidableEq

/-- First binding for a key in an assoc-list dictionary. -/
def dictLookup (kvs : List (String × PyVal)) (k : String) : Option PyVal :=
  match kvs.find? (fun p => p.fst == k) with
  | some p => some p.snd
  | none => none

/-- Python truthiness (`bool(v)`). -/
def pyTruthy : PyVal → Bool
  | .null => false
  | .bool b => b
  | .int n => n != 0
  | .str s => !(s == "")
  | .list xs => !xs.isEmpty
  | .dict kvs => !kvs.isEmpty

/-- Python `x or y`: `x` if truthy, else `y`. -/
def pyOr (x y : PyVal) : PyVal := if pyTruthy x then x else y

/-- Python `v.get(k, default)`: defined on dicts, `AttributeError` otherwise. -/
def pyGet (v : PyVal) (k : String) (default : PyVal) : Except PyErr PyVal :=
  match v with
  | .dict kvs => .ok ((dictLookup kvs k).getD default)
  | _ => .error .attributeError

/-- Python `v[k]` for a string key: dict item access (`KeyError` when the
key is missing), `TypeError` on lists/strings/others. -/
def pyGetItem (v : PyVal) (k : String) : Except PyErr PyVal :=
  match v with
  | .dict kvs =>
    match dictLookup kvs k with
    | some x => .ok x
    | none => .error .keyError
  | _ => .error .typeError

/-- Python `k in v` for a string `k`: key test on dicts, membership on lists,
substring test on strings, `TypeError` otherwise. -/
def pyContains (v : PyVal) (k : String) : Except PyErr Bool :=
  match v with
  | .dict kvs => .ok (kvs.any (fun p => p.fst == k))
  | .list xs => .ok (xs.any (fun x => match x with | .str s => s == k | _ => false))
  | .str s => .ok (if k == "" then true else (s.splitOn k).length > 1)
  | _ => .error .typeError

/-- `\s` for the ASCII whitespace characters recognized by `re`, also the
whitespace set used for `.strip()` and the `int()` string parse. -/
def pyIsSpace (c : Char) : Bool :=
  c == ' ' || c == '\t' || c == '\n' || c == '\x0d' || c == '\x0b' || c == '\x0c'

/-- Drop trailing whitespace (the right half of `.strip()`). -/
def dropTrailing : List Char → List Char
  | [] => []
  | c :: rest =>
    match dropTrailing rest with
    | [] => if pyIsSpace c then [] else [c]
    | r => c :: r

/-- Decimal digit accumulation; `none` on the first non-digit. -/
def parseDigitsAux : Nat → List Char → Option Nat
  | acc, [] => some acc
  | acc, c :: rest =>
    if '0' ≤ c && c ≤ '9' then parseDigitsAux (acc * 10 + (c.toNat - '0'.toNat)) rest
    else none

/-- The string forms Python `int(str)` accepts (restricted to ASCII):
optional surrounding whitespace, an optional sign, then at least one
decimal digit.  (Digit-group underscores and non-ASCII digits are outside
the modelled value space.) -/
def pyIntParse (l : List Char) : Option Int :=
  match dropTrailing (l.dropWhile pyIsSpace) with
  | '-' :: ds => if ds.isEmpty then none else (parseDigitsAux 0 ds).map (fun m => -(m : Int))
  | '+' :: ds => if ds.isEmpty then none else (parseDigitsAux 0 ds).map (fun m => (m : Int))
  | ds => if ds.isEmpty then none else (parseDigitsAux 0 ds).map (fun m => (m : Int))

/-- Python `int(v)`: identity on ints, 0/1 on bools, decimal parse on strings
(`ValueError` on a non-numeric string), `TypeError` otherwise. -/
def pyInt (v : PyVal) : Except PyErr Int :=
  match v with
  | .int n => .ok n
  | .bool b => .ok (if b then 1 else 0)
  | .str s =>
    match pyIntParse s.data with
    | some n => .ok n
    | none => .error .valueError
  | _ => .error .typeError

/-- Python `str(v)`.  The rendering of list/dict payloads is abbreviated:
no theorem below depends on the repr of a container, only on `str` of
strings, numbers, booleans and `None`. -/
def pyStr : PyVal → String
  | .null => "None"
  | .bool b => if b then "True" else "False"
  | .int n => toString n
  | .str s => s
  | .list _ => "[...]"
  | .dict _ => "\x7b...\x7d"

/-! ## Text cleaning (`clean_text_content` / `utils.clean_text`)

The three `re.sub` passes of the source are embedded as recursive functions
over `List Char`:
* `(?:https?|ftp)://\S+` removal (`stripUrls`),
* `[^a-z0-9\s]` removal with `re.IGNORECASE` (`removeSpecial`),
* `\s+` collapse to a single space followed by `.strip()`
  (`collapseWs`, then `pyStrip`). -/

/-- ASCII letters and digits: the characters kept (besides whitespace) by
`[^a-z0-9\s]` with `re.IGNORECASE`. -/
def isAlnumAscii (c : Char) : Bool :=
  ('a' ≤ c && c ≤ 'z') || ('A' ≤ c && c ≤ 'Z') || ('0' ≤ c && c ≤ '9')

/-- `p` is a literal prefix of `l`. -/
def startsWithChars : List Char → List Char → Bool
  | [], _ => true
  | _ :: _, [] => false
  | p :: ps, c :: cs => p == c && startsWithChars ps cs

/-- Length of the scheme prefix `https://`, `http://` or `ftp://` matched at
the head of `l` by `(?:https?|ftp)://`, if any. -/
def schemeLen (l : List Char) : Option Nat :=
  if startsWithChars "https://".data l then some 8
  else if startsWithChars "http://".data l then some 7
  else if startsWithChars "ftp://".data l then some 6
  else none

/-- One left-to-right pass of `re.sub(r'(?:https?|ftp)://\S+', '', text)`:
at each position, if a scheme followed by at least one non-space character
matches, the whole match is dropped and scanning resumes after it; otherwise
the character is kept.  `fuel` is initialized to the length of the list and
only bounds the recursion. -/
def stripUrlsAux : Nat → List Char → List Char
  | 0, l => l
  | _ + 1, [] => []
  | fuel + 1, c :: rest =>
    match schemeLen (c :: rest) with
    | some k =>
      match (c :: rest).drop k with
      | [] => c :: stripUrlsAux fuel rest
      | a :: as =>
        if pyIsSpace a then c :: stripUrlsAux fuel rest
        else stripUrlsAux fuel ((a :: as).dropWhile (fun x => !pyIsSpace x))
    | none => c :: stripUrlsAux fuel rest

def stripUrls (l : List Char) : List Char := stripUrlsAux l.length l

/-- `re.sub(r'[^a-z0-9\s]', '', text, flags=re.IGNORECASE)`. -/
def removeSpecial (l : List Char) : List Char :=
  l.filter (fun c => isAlnumAscii c || pyIsSpace c)

/-- `re.sub(r'\s+', ' ', text)`: every maximal whitespace run becomes one
space.  The flag records whether we are inside a run whose space was
already emitted. -/
def collapseAux : Bool → List Char → List Char
  | _, [] => []
  | inRun, c :: rest =>
    if pyIsSpace c then
      if inRun then collapseAux true rest
      else ' ' :: collapseAux true rest
    else c :: collapseAux false rest

def collapseWs (l : List Char) : List Char := collapseAux false l

/-- Python `.strip()`. -/
def pyStrip (l : List Char) : List Char :=
  dropTrailing (l.dropWhile pyIsSpace)

/-- The three regex passes on a character list. -/
def cleanChars (l : List Char) : List Char :=
  pyStrip (collapseWs (removeSpecial (stripUrls l)))

/-- `clean_text_content` of `tweet_collector.py` (and, for string inputs,
`clean_text` of `utils.py`): empty result on falsy input, otherwise URL
removal, special-character removal and whitespace normalization. -/
def clean_text_content (s : String) : String :=
  if s.data.isEmpty then "" else String.mk (cleanChars s.data)

/-- `clean_text_content` lifted to a `PyVal` argument, as used on
`tw.get("text", "") or ""`: falsy values clean to `""`, non-string truthy
values make `re.sub` raise `TypeError`. -/
def cleanTextPy (v : PyVal) : Except PyErr String :=
  if !pyTruthy v then .ok ""
  else
    match v with
    | .str s => .ok (clean_text_content s)
    | _ => .error .typeError

/-! ## Query enumeration (`iter_queries`) -/

/-- A location dictionary: `loc["geo"]` and `loc.get("name", "")`. -/
structure Location where
  geo : String
  name : String

/-- A yielded query descriptor. -/
structure QueryDesc where
  query : String
  locationName : String
  geo : String
  keyword : String

/-- The dictionary yielded for one (location, keyword) pair. -/
def mkQueryDesc (loc : Location) (kw : String) : QueryDesc :=
  ⟨kw ++ " geocode:" ++ loc.geo, loc.name, loc.geo, kw⟩

/-- Python `l[:n]` for an optional non-negative cap (`None` keeps the list). -/
def truncOpt (l : List α) : Option Nat → List α
  | none => l
  | some n => l.take n

/-- `max_queries is not None and count >= max_queries`. -/
def capReached (mq : Option Nat) (count : Nat) : Bool :=
  match mq with
  | none => false
  | some m => m ≤ count

/-- The inner `for kw in keys` loop of `iter_queries`: returns the yielded
descriptors, the updated count, and whether the generator returned because
the `max_queries` cap was reached right after a yield. -/
def innerLoop (loc : Location) (mq : Option Nat) : List String → Nat → List QueryDesc × Nat × Bool
  | [], c => ([], c, false)
  | kw :: kws, c =>
    let q := mkQueryDesc loc kw
    if capReached mq (c + 1) then ([q], c + 1, true)
    else
      let r := innerLoop loc mq kws (c + 1)
      (q :: r.1, r.2.1, r.2.2)

/-- The outer `for loc in locs` loop of `iter_queries`. -/
def outerLoop (keys : List String) (mq : Option Nat) : List Location → Nat → List QueryDesc
  | [], _ => []
  | loc :: rest, c =>
    let r := innerLoop loc mq keys c
    if r.2.2 then r.1 else r.1 ++ outerLoop keys mq rest r.2.1

/-- `iter_queries`, collected into a list (the generator is consumed exactly
once by the pipeline). -/
def iter_queries (locations : List Location) (keywords : List String)
    (maxLocations maxKeywords maxQueries : Option Nat) : List QueryDesc :=
  outerLoop (truncOpt keywords maxKeywords) maxQueries (truncOpt locations maxLocations) 0

/-- The full location × keyword cross product in enumeration order. -/
def crossQueries (locs : List Location) (keys : List String) : List QueryDesc :=
  locs.flatMap (fun loc => keys.map (mkQueryDesc loc))

/-! ## Authenticated fetch (`TwitterClient.fetch`)

One attempted HTTP request either yields a response object (status code plus
deserialized body) or raises a `requests.RequestException`; the claims under
test quantify over these transport outcomes, so `fetch` takes the outcome of
the primary request and an oracle `altOutcome` giving the outcome of each of
the three fallback-auth attempts.  The query string only influences which
outcome the transport produces, which the quantification over outcomes
already covers. -/

inductive TransportOutcome where
  | resp (statusCode : Nat) (body : PyVal)
  | exn (msg : String)

/-- The `{"error": {"message": msg}}` payload shape used by `fetch`. -/
def errorPayload (msg : String) : PyVal :=
  .dict [("error", .dict [("message", .str msg)])]

/-- The auth-method labels of `get_alt_auth_headers`, in order. -/
def altMethodNames : List String :=
  ["X-API-Key Header", "Token Header", "Direct Token"]

/-- The fallback loop: each alternative request is issued independently;
an exception during a fallback attempt is swallowed and the next scheme is
tried; the first status-200 body is returned with that scheme's label. -/
def tryAlts : List (TransportOutcome × String) → Option (PyVal × String)
  | [] => none
  | (o, name) :: rest =>
    match o with
    | .resp 200 body => some (body, name)
    | _ => tryAlts rest

/-- The three fallback attempts of `get_alt_auth_headers`, each paired with
its method label, given the transport outcome of each attempt. -/
def altAttempts (altOutcome : Nat → TransportOutcome) : List (TransportOutcome × String) :=
  [(altOutcome 0, "X-API-Key Header"), (altOutcome 1, "Token Header"),
   (altOutcome 2, "Direct Token")]

/-- `TwitterClient.fetch`.  `str(e)` of a `requests.HTTPError` raised by
`raise_for_status` (only for status >= 400) is abbreviated to the literal
`"HTTPError"` suffix; no theorem depends on that text. -/
def fetch (primary : TransportOutcome) (altOutcome : Nat → TransportOutcome)
    (retryAlt : Bool) : PyVal × String :=
  let method := "Bearer Token"
  match primary with
  | .exn msg => (errorPayload msg, method)
  | .resp code body =>
    if code = 200 then (body, method)
    else if code = 401 ∧ retryAlt = true then
      match tryAlts (altAttempts altOutcome) with
      | some r => r
      | none => (errorPayload "401 Unauthorized - Token may be invalid or expired", method)
    else if 400 ≤ code then
      (errorPayload ("HTTP " ++ toString code ++ ": HTTPError"), method)
    else
      (errorPayload ("HTTP " ++ toString code), method)

/-! ## Response flattening (`flatten_one`) -/

/-- One normalized output row.  Fields the source stores without coercion
keep type `PyVal`; `Reply Count`/`Like Count` pass through `int()`,
`Text Content` through `clean_text_content`, `Error` through `str()`, and
`No Results` is a literal boolean. -/
structure Row where
  query : String
  date : PyVal
  tweetBy : PyVal
  textContent : String
  replyCount : Int
  likeCount : Int
  tweetURL : PyVal
  profileUserName : PyVal
  profileDescription : PyVal
  noResults : Bool
  error : String
  authMethod : String

/-- The sentinel row for error / no-result outcomes: all content fields
empty or zero, `No Results=True`. -/
def sentinelRow (qtext method err : String) : Row :=
  ⟨qtext, .str "", .str "", "", 0, 0, .str "", .str "", .str "", true, err, method⟩

/-- The `url` computation of lines 234-236: an explicit `url` field, or a
synthesized `https://twitter.com/<userName>/status/<id>` when `id` and
`author.userName` are truthy (the `and` chain short-circuits). -/
def urlOf (tw : PyVal) : Except PyErr PyVal := do
  let u ← pyGet tw "url" (.str "")
  if pyTruthy u then return u
  else
    let idv ← pyGet tw "id" .null
    if !pyTruthy idv then return u
    else
      let a ← pyGet tw "author" (.dict [])
      let un ← pyGet a "userName" .null
      if !pyTruthy un then return u
      else
        let a' ← pyGetItem tw "author"
        let un' ← pyGetItem a' "userName"
        let i ← pyGetItem tw "id"
        return .str ("https://twitter.com/" ++ pyStr un' ++ "/status/" ++ pyStr i)

/-- `tw.get("createdAt", tw.get("created_at", ""))` (the inner default is
evaluated first). -/
def dateOf (tw : PyVal) : Except PyErr PyVal := do
  let inner ← pyGet tw "created_at" (.str "")
  pyGet tw "createdAt" inner

/-- The dual-shape lookups
`tw.get(primObj, {}).get(primField, tw.get(altObj, {}).get(altField, default))`
used for `Tweet by`, `Profile User Name` and `Profile Description`. -/
def pick2 (tw : PyVal) (primObj primField altObj altField : String)
    (default : PyVal) : Except PyErr PyVal := do
  let a ← pyGet tw primObj (.dict [])
  let u ← pyGet tw altObj (.dict [])
  let inner ← pyGet u altField default
  pyGet a primField inner

/-- The count extraction
`int(tw.get(camel, tw.get("public_metrics", {}).get(snake, 0)) or 0)`. -/
def countOf (tw : PyVal) (camel snake : String) : Except PyErr Int := do
  let pm ← pyGet tw "public_metrics" (.dict [])
  let inner ← pyGet pm snake (.int 0)
  let v ← pyGet tw camel inner
  pyInt (pyOr v (.int 0))

/-- `tw.get("text", "") or ""` passed through `clean_text_content`. -/
def textOf (tw : PyVal) : Except PyErr String := do
  let v ← pyGet tw "text" (.str "")
  cleanTextPy (pyOr v (.str ""))

/-- The row built for one post in the `for tw in tweets` loop, with the
source's evaluation order (url first, then the row literal fields in
order). -/
def flattenTweet (qtext method : String) (tw : PyVal) : Except PyErr Row := do
  let url ← urlOf tw
  let date ← dateOf tw
  let tweetBy ← pick2 tw "author" "name" "user" "name" (.str "")
  let text ← textOf tw
  let rc ← countOf tw "replyCount" "reply_count"
  let lc ← countOf tw "likeCount" "like_count"
  let pun ← pick2 tw "author" "userName" "user" "screen_name" (.str "")
  let pdesc ← pick2 tw "author" "description" "user" "description" (.str "")
  return ⟨qtext, date, tweetBy, text, rc, lc, url, pun, pdesc, false, "", method⟩

/-- The row-accumulating loop: the first exception aborts the whole call,
rows are produced in post order. -/
def mapRows (f : PyVal → Except PyErr Row) : List PyVal → Except PyErr (List Row)
  | [] => .ok []
  | x :: xs =>
    match f x with
    | .error e => .error e
    | .ok r =>
      match mapRows f xs with
      | .error e => .error e
      | .ok rs => .ok (r :: rs)

/-- Iterating `for tw in tweets` over a truthy non-list value: a string
iterates its characters (then `tw.get` raises `AttributeError`), a dict its
keys (likewise); numbers and booleans are not iterable (`TypeError`). -/
def iterTweets (qtext method : String) (tweets : List PyVal) : Except PyErr (List Row) :=
  mapRows (flattenTweet qtext method) tweets

/-- `flatten_one`: error payloads and empty extractions yield one sentinel
row, otherwise one row per post. -/
def flatten_one (response : PyVal) (method : String) (queryObj : QueryDesc) :
    Except PyErr (List Row) := do
  let qtext := queryObj.query
  let hasErr ← pyContains response "error"
  if hasErr then
    let e ← pyGetItem response "error"
    let msg ← pyGet e "message" e
    return [sentinelRow qtext method (pyStr msg)]
  else
    let respData ← pyGet response "response" response
    let dataDefault ← pyGet respData "data" (.list [])
    let tweets0 ← pyGet respData "tweets" dataDefault
    let tweets := pyOr tweets0 (.list [])
    if !pyTruthy tweets then
      return [sentinelRow qtext method ""]
    else
      match tweets with
      | .list items => iterTweets qtext method items
      | .str _ => .error .attributeError
      | .dict _ => .error .attributeError
      | _ => .error .typeError

/-! ## DataFrame conversion (`to_ordered_df`)

The rows reaching `to_ordered_df` in this embedding are already fixed-schema
`Row` values (the schema-filling and dtype coercions of lines 272-291 are
the identity on them), so the semantic content of the function is the
`No Results` filter of lines 293-295. -/

def to_ordered_df (rows : List Row) : List Row :=
  rows.filter (fun r => !r.noResults)

/-! ## Streaming pipeline (`run_pipeline_streaming`)

The output store is a list of CSV lines; `df.to_csv(..., mode="a",
header=not header_written, ...)` appends a header line (when requested)
followed by one data line per row.  A write attempt consults the oracle
`writeOk` at the current attempt index: `false` models `to_csv` raising a
persistence error (`OSError` etc.), in which case nothing is appended and
the exception propagates (only `MemoryError` is caught by the source, and
resource exhaustion is not modelled). -/

inductive Line where
  | header
  | data (r : Row)

/-- The configuration fields of `RunConfig` that affect the data flow
(`api_token`, `csv_filename`, `sleep_seconds`, `timeout` and
`verbose_every` only affect I/O details outside the model). -/
structure RunConfig where
  batchSize : Nat
  maxLocations : Option Nat
  maxKeywords : Option Nat
  maxQueries : Option Nat

structure RunStats where
  totalQueries : Nat
  totalRowsWritten : Nat
  totalLikes : Int
  totalReplies : Int
  errorsSample : List String

/-- The mutable loop state of `run_pipeline_streaming`: the batch buffer,
the `header_written` flag, the store contents, the statistics, and the
number of `to_csv` attempts made so far (the oracle index). -/
structure LoopState where
  batch : List Row
  headerWritten : Bool
  file : List Line
  stats : RunStats
  writeIdx : Nat

/-- The exceptions that can escape the pipeline loop: an exception raised
by `flatten_one`, or a persistence failure raised by `to_csv`. -/
inductive PipeErr where
  | flattenRaise (e : PyErr)
  | writeFail

/-- Lines 380-383: record the first error message (truncated to 120
characters) of a query's rows while fewer than 5 samples are stored. -/
def trackError (rows : List Row) (es : List String) : List String :=
  match rows with
  | [] => es
  | r :: _ =>
    if r.error == "" then es
    else if es.length < 5 then es ++ [String.mk (r.error.data.take 120)]
    else es

/-- Line 387: rows kept for the batch (and the likes/replies totals). -/
def goodRow (r : Row) : Bool := !r.noResults && r.error == ""

/-- Lines 393-406: the threshold flush.  `batch.clear()` is line 405: it
executes only when `to_csv` did not raise. -/
def flushStep (writeOk : Nat → Bool) (s : LoopState) :
    Except (PipeErr × LoopState) LoopState :=
  let df := to_ordered_df s.batch
  if df.isEmpty then
    .ok ⟨[], s.headerWritten, s.file, s.stats, s.writeIdx⟩
  else if writeOk s.writeIdx then
    .ok ⟨[], true,
      s.file ++ (if s.headerWritten then [] else [Line.header]) ++ df.map Line.data,
      ⟨s.stats.totalQueries, s.stats.totalRowsWritten + df.length,
        s.stats.totalLikes, s.stats.totalReplies, s.stats.errorsSample⟩,
      s.writeIdx + 1⟩
  else
    .error (.writeFail, ⟨s.batch, s.headerWritten, s.file, s.stats, s.writeIdx + 1⟩)

/-- Lines 416-428: the final flush (note: it does not update
`header_written`, and `batch.clear()` again follows the write). -/
def finalFlush (writeOk : Nat → Bool) (s : LoopState) :
    Except (PipeErr × LoopState) LoopState :=
  if s.batch.isEmpty then .ok s
  else
    let df := to_ordered_df s.batch
    if df.isEmpty then
      .ok ⟨[], s.headerWritten, s.file, s.stats, s.writeIdx⟩
    else if writeOk s.writeIdx then
      .ok ⟨[], s.headerWritten,
        s.file ++ (if s.headerWritten then [] else [Line.header]) ++ df.map Line.data,
        ⟨s.stats.totalQueries, s.stats.totalRowsWritten + df.length,
          s.stats.totalLikes, s.stats.totalReplies, s.stats.errorsSample⟩,
        s.writeIdx + 1⟩
    else
      .error (.writeFail, ⟨s.batch, s.headerWritten, s.file, s.stats, s.writeIdx + 1⟩)

/-- Lines 376-406: one iteration of the query loop.  `fetchO` is the
(already never-raising) result of `client.fetch` for a query string. -/
def queryStep (fetchO : String → PyVal × String) (writeOk : Nat → Bool)
    (cfg : RunConfig) (q : QueryDesc) (s : LoopState) :
    Except (PipeErr × LoopState) LoopState :=
  let st1 : RunStats := ⟨s.stats.totalQueries + 1, s.stats.totalRowsWritten,
    s.stats.totalLikes, s.stats.totalReplies, s.stats.errorsSample⟩
  let pm := fetchO q.query
  match flatten_one pm.1 pm.2 q with
  | .error e => .error (.flattenRaise e, ⟨s.batch, s.headerWritten, s.file, st1, s.writeIdx⟩)
  | .ok rows =>
    let es := trackError rows st1.errorsSample
    let good := rows.filter goodRow
    let st2 : RunStats := ⟨st1.totalQueries, st1.totalRowsWritten,
      st1.totalLikes + good.foldl (fun a r => a + r.likeCount) 0,
      st1.totalReplies + good.foldl (fun a r => a + r.replyCount) 0, es⟩
    let s2 : LoopState := ⟨s.batch ++ good, s.headerWritten, s.file, st2, s.writeIdx⟩
    if cfg.batchSize ≤ s2.batch.length then flushStep writeOk s2 else .ok s2

/-- The `for i, qobj in enumerate(iter_queries(...))` loop. -/
def runLoop (fetchO : String → PyVal × String) (writeOk : Nat → Bool)
    (cfg : RunConfig) : List QueryDesc → LoopState →
    Except (PipeErr × LoopState) LoopState
  | [], s => .ok s
  | q :: qs, s =>
    match queryStep fetchO writeOk cfg q s with
    | .error e => .error e
    | .ok s' => runLoop fetchO writeOk cfg qs s'

/-- `run_pipeline_streaming` on an initial store state.  `header_written`
is initialized from file pre-existence and non-zero size (line 350), which
for the line-list model is non-emptiness. -/
def run_pipeline_streaming (fetchO : String → PyVal × String)
    (writeOk : Nat → Bool) (locations : List Location) (keywords : List String)
    (cfg : RunConfig) (initFile : List Line) :
    Except (PipeErr × LoopState) (RunStats × List Line) :=
  let s0 : LoopState := ⟨[], !initFile.isEmpty, initFile, ⟨0, 0, 0, 0, []⟩, 0⟩
  match runLoop fetchO writeOk cfg
      (iter_queries locations keywords cfg.maxLocations cfg.maxKeywords cfg.maxQueries) s0 with
  | .error e => .error e
  | .ok s =>
    match finalFlush writeOk s with
    | .error e => .error e
    | .ok s' => .ok (s'.stats, s'.file)

/-- The store contents when the run returns, or at the moment the escaping
exception was raised. -/
def resultFile : Except (PipeErr × LoopState) (RunStats × List Line) → List Line
  | .error (_, s) => s.file
  | .ok (_, f) => f

/-- The statistics when the run returns, or at the raise point. -/
def resultStats : Except (PipeErr × LoopState) (RunStats × List Line) → RunStats
  | .error (_, s) => s.stats
  | .ok (st, _) => st

/-- The in-memory batch buffer at the raise point (empty for a completed
run: the final flush cleared it or it was empty). -/
def resultBuffer : Except (PipeErr × LoopState) (RunStats × List Line) → List Row
  | .error (_, s) => s.batch
  | .ok _ => []

/-- Did the run abort with a persistence failure raised by `to_csv`? -/
def isWriteFailure : Except (PipeErr × LoopState) (RunStats × List Line) → Bool
  | .error (.writeFail, _) => true
  | _ => false

/-! ## The well-shaped response family for the amended claim C4 -/

/-- A structurally absent field, or one holding a dict. -/
def dictOrAbsent : Option PyVal → Bool
  | none => true
  | some (.dict _) => true
  | some _ => false

/-- A value `int(v or 0)` accepts: falsy (then `or 0` applies), an int, a
bool, or a numeric string. -/
def countSafe (v : PyVal) : Bool :=
  !pyTruthy v ||
    (match v with
     | .int _ => true
     | .bool _ => true
     | .str s => (pyIntParse s.data).isSome
     | _ => false)

/-- A `text` field `clean_text_content` accepts: absent, a string, or falsy. -/
def textSafe : Option PyVal → Bool
  | none => true
  | some (.str _) => true
  | some v => !pyTruthy v

/-- The count value `int(...)` is applied to, resolved like the source:
`tw.get(camel, tw.get("public_metrics", {}).get(snake, 0))`. -/
def resolvedCount (tkvs : List (String × PyVal)) (camel snake : String) : PyVal :=
  let pm := (dictLookup tkvs "public_metrics").getD (.dict [])
  let inner :=
    match pm with
    | .dict pkvs => (dictLookup pkvs snake).getD (.int 0)
    | _ => .int 0
  (dictLookup tkvs camel).getD inner

/-- A post object the row builder processes without raising. -/
def safeTweet (tw : PyVal) : Bool :=
  match tw with
  | .dict tkvs =>
    dictOrAbsent (dictLookup tkvs "author") &&
    dictOrAbsent (dictLookup tkvs "user") &&
    dictOrAbsent (dictLookup tkvs "public_metrics") &&
    textSafe (dictLookup tkvs "text") &&
    countSafe (resolvedCount tkvs "replyCount" "reply_count") &&
    countSafe (resolvedCount tkvs "likeCount" "like_count")
  | _ => false

/-- A response `flatten_one` processes without raising: a dict whose
`error` value, when present, is a dict; otherwise, with the nested
response resolved like the source, a dict whose extracted post list is
falsy or a list of safe posts. -/
def safeResponse (r : PyVal) : Bool :=
  match r with
  | .dict kvs =>
    match dictLookup kvs "error" with
    | some (.dict _) => true
    | some _ => false
    | none =>
      match (dictLookup kvs "response").getD r with
      | .dict rkvs =>
        let tweets0 := (dictLookup rkvs "tweets").getD ((dictLookup rkvs "data").getD (.list []))
        let tweets := pyOr tweets0 (.list [])
        if !pyTruthy tweets then true
        else
          match tweets with
          | .list items => items.all safeTweet
          | _ => false
      | _ => false
  | _ => false

/-- The characters a cleaned text can contain: ASCII alphanumerics and the
plain space. -/
def cleanChar (c : Char) : Bool := isAlnumAscii c || c == ' '

/-- No two adjacent whitespace characters. -/
def noTwoSpaces : List Char → Bool
  | c :: d :: rest => (!(pyIsSpace c && pyIsSpace d)) && noTwoSpaces (d :: rest)
  | _ => true

/-- A header line or a data line. -/
def isDataLine : Line → Bool
  | .header => false
  | .data _ => true

/-- Number of header lines in a stretch of the store. -/
def countHeaders (ls : List Line) : Nat := ls.countP (fun l => !isDataLine l)

/-- A store line the invariants allow: any header, or a data row with
`No Results=False`. -/
def lineOk : Line → Bool
  | .header => true
  | .data r => !r.noResults

/-- The loop state carried by a step result: the new state on success, the
state at the raise point on an exception. -/
def resState : Except (PipeErr × LoopState) LoopState → LoopState
  | .ok s' => s'
  | .error (_, s') => s'

/-- How one pipeline-loop step may change the store: it only appends; every
appended data row has `No Results=False`; at most one header is appended and
only when `header_written` was still false; once `header_written` is set it
stays set and only data rows are appended; and while `header_written` is
still false nothing has been appended. -/
def StepExt (s s' : LoopState) : Prop :=
  ∃ tl, s'.file = s.file ++ tl ∧
    tl.all lineOk = true ∧
    countHeaders tl ≤ (if s.headerWritten then 0 else 1) ∧
    (s.headerWritten = true → s'.headerWritten = true ∧ tl.all isDataLine = true) ∧
    (s'.headerWritten = false → tl = [] ∧ s.headerWritten = false)

/-- The weaker extension property of the final flush, which appends like a
flush but does not update `header_written`. -/
def FinExt (s s' : LoopState) : Prop :=
  ∃ tl, s'.file = s.file ++ tl ∧
    tl.all lineOk = true ∧
    countHeaders tl ≤ (if s.headerWritten then 0 else 1) ∧
    (s.headerWritten = true → tl.all isDataLine = true)

/-- A concrete one-post success response used by the concrete runs below. -/
def sampleOkResp : PyVal := .dict [("tweets", .list [.dict [("id", .int 5)]])]

/-- A one-post response probing the count extraction. -/
def countProbeTweet (rc lc : PyVal) : PyVal :=
  .dict [("replyCount", rc), ("likeCount", lc)]

def countProbeResp (rc lc : PyVal) : PyVal :=
  .dict [("tweets", .list [countProbeTweet rc lc])]

/-- A one-post response whose post has no count fields at all. -/
def countAbsentResp : PyVal := .dict [("tweets", .list [.dict []])]

/-! # Theorems -/

theorem alnum_not_space {c : Char} (h : isAlnumAscii c = true) : pyIsSpace c = false := by
  cases hs : pyIsSpace c with
  | false => rfl
  | true =>
    simp only [pyIsSpace, Bool.or_eq_true, beq_iff_eq] at hs
    rcases hs with ((((h1 | h1) | h1) | h1) | h1) | h1 <;> subst h1 <;>
      exact absurd h (by decide)

theorem startsWith_mem {p l : List Char} (h : startsWithChars p l = true) :
    ∀ x ∈ p, x ∈ l := by
  induction p generalizing l with
  | nil => intro x hx; simp at hx
  | cons a ps ih =>
    cases l with
    | nil => simp [startsWithChars] at h
    | cons c cs =>
      simp only [startsWithChars, Bool.and_eq_true, beq_iff_eq] at h
      intro x hx
      rcases List.mem_cons.mp hx with h1 | h1
      · exact h1 ▸ h.1 ▸ List.mem_cons_self _ _
      · exact List.mem_cons_of_mem _ (ih h.2 x h1)

theorem schemeLen_none {l : List Char} (h : ∀ c ∈ l, cleanChar c = true) :
    schemeLen l = none := by
  have colon : (':' : Char) ∉ l := by
    intro hc
    have := h ':' hc
    simp [cleanChar, isAlnumAscii] at this
  have h8 : startsWithChars "https://".data l = false := by
    cases hs : startsWithChars "https://".data l with
    | false => rfl
    | true => exact absurd (startsWith_mem hs ':' (by decide)) colon
  have h7 : startsWithChars "http://".data l = false := by
    cases hs : startsWithChars "http://".data l with
    | false => rfl
    | true => exact absurd (startsWith_mem hs ':' (by decide)) colon
  have h6 : startsWithChars "ftp://".data l = false := by
    cases hs : startsWithChars "ftp://".data l with
    | false => rfl
    | true => exact absurd (startsWith_mem hs ':' (by decide)) colon
  simp [schemeLen, h8, h7, h6]

theorem stripUrlsAux_clean : ∀ (fuel : Nat) (l : List Char),
    (∀ c ∈ l, cleanChar c = true) → stripUrlsAux fuel l = l := by
  intro fuel
  induction fuel with
  | zero => intro l _; rfl
  | succ n ih =>
    intro l h
    cases l with
    | nil => rfl
    | cons c rest =>
      have hs := schemeLen_none h
      simp only [stripUrlsAux, hs]
      exact congrArg (c :: ·) (ih rest (fun x hx => h x (List.mem_cons_of_mem _ hx)))

theorem stripUrls_clean {l : List Char} (h : ∀ c ∈ l, cleanChar c = true) :
    stripUrls l = l := stripUrlsAux_clean _ l h

theorem removeSpecial_clean {l : List Char} (h : ∀ c ∈ l, cleanChar c = true) :
    removeSpecial l = l := by
  apply List.filter_eq_self.mpr
  intro c hc
  have := h c hc
  simp only [cleanChar, Bool.or_eq_true, beq_iff_eq] at this
  rcases this with h1 | h1
  · simp [h1]
  · subst h1; simp [pyIsSpace]

theorem noTwoSpaces_tail {c : Char} {rest : List Char}
    (h : noTwoSpaces (c :: rest) = true) : noTwoSpaces rest = true := by
  cases rest with
  | nil => rfl
  | cons d tl =>
    simp only [noTwoSpaces, Bool.and_eq_true] at h
    exact h.2

theorem noTwoSpaces_pair {c d : Char} {tl : List Char}
    (h : noTwoSpaces (c :: d :: tl) = true) : (pyIsSpace c && pyIsSpace d) = false := by
  simp only [noTwoSpaces, Bool.and_eq_true, Bool.not_eq_true'] at h
  exact h.1

theorem noTwoSpaces_cons {c : Char} {l : List Char}
    (hhead : ∀ d, l.head? = some d → (pyIsSpace c && pyIsSpace d) = false)
    (h : noTwoSpaces l = true) : noTwoSpaces (c :: l) = true := by
  cases l with
  | nil => rfl
  | cons d tl =>
    simp only [noTwoSpaces, Bool.and_eq_true]
    exact ⟨by simp [hhead d rfl], h⟩

theorem collapseAux_true_head : ∀ (l : List Char) (c : Char),
    (collapseAux true l).head? = some c → pyIsSpace c = false := by
  intro l
  induction l with
  | nil => intro c h; simp [collapseAux] at h
  | cons a rest ih =>
    intro c h
    by_cases ha : pyIsSpace a = true
    · simp only [collapseAux, ha, if_true] at h
      exact ih c h
    · simp [collapseAux, ha] at h
      simp only [Bool.not_eq_true] at ha
      exact h ▸ ha

theorem collapseAux_noTwo : ∀ (l : List Char) (flag : Bool),
    noTwoSpaces (collapseAux flag l) = true := by
  intro l
  induction l with
  | nil => intro flag; rfl
  | cons a rest ih =>
    intro flag
    by_cases ha : pyIsSpace a = true
    · cases flag with
      | true => simpa only [collapseAux, ha, if_true] using ih true
      | false =>
        simp only [collapseAux, ha, if_true, if_false]
        apply noTwoSpaces_cons
        · intro d hd
          have := collapseAux_true_head rest d hd
          simp [this]
        · exact ih true
    · simp only [collapseAux, ha, if_false]
      apply noTwoSpaces_cons
      · intro d _
        simp only [Bool.not_eq_true] at ha
        simp [ha]
      · exact ih false

theorem collapseAux_mem : ∀ (l : List Char) (flag : Bool) (c : Char),
    c ∈ collapseAux flag l → c = ' ' ∨ (c ∈ l ∧ pyIsSpace c = false) := by
  intro l
  induction l with
  | nil => intro flag c h; simp [collapseAux] at h
  | cons a rest ih =>
    intro flag c h
    by_cases ha : pyIsSpace a = true
    · cases flag with
      | true =>
        simp only [collapseAux, ha, if_true] at h
        rcases ih true c h with h1 | h1
        · exact Or.inl h1
        · exact Or.inr ⟨List.mem_cons_of_mem _ h1.1, h1.2⟩
      | false =>
        simp only [collapseAux, ha, if_true, if_false] at h
        rcases List.mem_cons.mp h with h1 | h1
        · exact Or.inl h1
        · rcases ih true c h1 with h2 | h2
          · exact Or.inl h2
          · exact Or.inr ⟨List.mem_cons_of_mem _ h2.1, h2.2⟩
    · simp only [collapseAux, ha, if_false] at h
      rcases List.mem_cons.mp h with h1 | h1
      · subst h1
        simp only [Bool.not_eq_true] at ha
        exact Or.inr ⟨List.mem_cons_self _ _, ha⟩
      · rcases ih false c h1 with h2 | h2
        · exact Or.inl h2
        · exact Or.inr ⟨List.mem_cons_of_mem _ h2.1, h2.2⟩

theorem collapseAux_id : ∀ (l : List Char),
    noTwoSpaces l = true → (∀ c ∈ l, pyIsSpace c = true → c = ' ') →
    collapseAux false l = l := by
  intro l
  induction l with
  | nil => intro _ _; rfl
  | cons a rest ih =>
    intro hnts hsp
    by_cases ha : pyIsSpace a = true
    · have haeq : a = ' ' := hsp a (List.mem_cons_self _ _) ha
      have hrest : collapseAux true rest = rest := by
        cases rest with
        | nil => rfl
        | cons d tl =>
          have hd : pyIsSpace d = false := by
            have hp := noTwoSpaces_pair hnts
            rw [ha] at hp
            simpa using hp
          have : collapseAux true (d :: tl) = collapseAux false (d :: tl) := by
            simp [collapseAux, hd]
          rw [this]
          exact ih (noTwoSpaces_tail hnts)
            (fun c hc h => hsp c (List.mem_cons_of_mem _ hc) h)
      subst haeq
      simp [collapseAux, ha, hrest]
    · simp only [collapseAux, ha, if_false]
      exact congrArg (a :: ·)
        (ih (noTwoSpaces_tail hnts) (fun c hc h => hsp c (List.mem_cons_of_mem _ hc) h))

theorem dropTrailing_sub : ∀ (l : List Char), ∀ c ∈ dropTrailing l, c ∈ l := by
  intro l
  induction l with
  | nil => intro c h; simp [dropTrailing] at h
  | cons a rest ih =>
    intro c h
    cases m : dropTrailing rest with
    | nil =>
      cases ha : pyIsSpace a with
      | true => simp [dropTrailing, m, ha] at h
      | false =>
        simp only [dropTrailing, m, ha] at h
        simp only [Bool.false_eq_true, if_false, List.mem_singleton] at h
        exact h ▸ List.mem_cons_self _ _
    | cons r rtl =>
      simp only [dropTrailing, m] at h
      rcases List.mem_cons.mp h with h1 | h1
      · exact h1 ▸ List.mem_cons_self _ _
      · have hmem : c ∈ dropTrailing rest := by
          rw [m]; exact h1
        exact List.mem_cons_of_mem _ (ih c hmem)

theorem dropTrailing_head : ∀ (l : List Char) (c : Char) (tl : List Char),
    dropTrailing l = c :: tl → l.head? = some c := by
  intro l
  cases l with
  | nil => intro c tl h; simp [dropTrailing] at h
  | cons a rest =>
    intro c tl h
    cases m : dropTrailing rest with
    | nil =>
      cases ha : pyIsSpace a with
      | true => simp [dropTrailing, m, ha] at h
      | false =>
        simp only [dropTrailing, m, ha] at h
        simp only [Bool.false_eq_true, if_false, List.cons.injEq] at h
        exact h.1 ▸ rfl
    | cons r rtl =>
      simp only [dropTrailing, m] at h
      simp only [List.cons.injEq] at h
      exact h.1 ▸ rfl

theorem dropTrailing_noTwo : ∀ (l : List Char),
    noTwoSpaces l = true → noTwoSpaces (dropTrailing l) = true := by
  intro l
  induction l with
  | nil => intro _; rfl
  | cons a rest ih =>
    intro h
    cases m : dropTrailing rest with
    | nil =>
      by_cases ha : pyIsSpace a = true
      · simp [dropTrailing, m, ha, noTwoSpaces]
      · simp [dropTrailing, m, ha, noTwoSpaces]
    | cons r rtl =>
      have hrest : noTwoSpaces (r :: rtl) = true := m ▸ ih (noTwoSpaces_tail h)
      have : dropTrailing (a :: rest) = a :: r :: rtl := by
        simp only [dropTrailing, m]
      rw [this]
      apply noTwoSpaces_cons
      · intro d hd
        simp only [List.head?_cons, Option.some.injEq] at hd
        subst hd
        have hh := dropTrailing_head rest r rtl m
        cases rest with
        | nil => simp at hh
        | cons b btl =>
          simp only [List.head?_cons, Option.some.injEq] at hh
          subst hh
          exact noTwoSpaces_pair h
      · exact hrest

theorem dropTrailing_getLast : ∀ (l : List Char) (c : Char),
    (dropTrailing l).getLast? = some c → pyIsSpace c = false := by
  intro l
  induction l with
  | nil => intro c h; simp [dropTrailing] at h
  | cons a rest ih =>
    intro c h
    cases m : dropTrailing rest with
    | nil =>
      cases ha : pyIsSpace a with
      | true => simp [dropTrailing, m, ha] at h
      | false =>
        simp only [dropTrailing, m, ha] at h
        simp only [Bool.false_eq_true, if_false, List.getLast?_singleton, Option.some.injEq] at h
        exact h ▸ ha
    | cons r rtl =>
      simp only [dropTrailing, m] at h
      rw [List.getLast?_cons_cons] at h
      exact ih c (m ▸ h)

theorem dropTrailing_id : ∀ (l : List Char),
    (∀ c, l.getLast? = some c → pyIsSpace c = false) → dropTrailing l = l := by
  intro l
  induction l with
  | nil => intro _; rfl
  | cons a rest ih =>
    intro h
    cases rest with
    | nil =>
      have := h a rfl
      simp [dropTrailing, this]
    | cons b btl =>
      have hrest : dropTrailing (b :: btl) = b :: btl :=
        ih (fun c hc => h c (by rw [List.getLast?_cons_cons]; exact hc))
      show (match dropTrailing (b :: btl) with
            | [] => if pyIsSpace a = true then [] else [a]
            | r => a :: r) = a :: b :: btl
      rw [hrest]

theorem dropWhile_head_not {p : Char → Bool} : ∀ (l : List Char) (c : Char),
    (l.dropWhile p).head? = some c → p c = false := by
  intro l
  induction l with
  | nil => intro c h; simp [List.dropWhile] at h
  | cons a rest ih =>
    intro c h
    by_cases ha : p a = true
    · rw [List.dropWhile_cons_of_pos ha] at h
      exact ih c h
    · rw [List.dropWhile_cons_of_neg ha] at h
      simp only [List.head?_cons, Option.some.injEq] at h
      simp only [Bool.not_eq_true] at ha
      exact h ▸ ha

theorem dropWhile_noTwo {p : Char → Bool} : ∀ (l : List Char),
    noTwoSpaces l = true → noTwoSpaces (l.dropWhile p) = true := by
  intro l
  induction l with
  | nil => intro _; rfl
  | cons a rest ih =>
    intro h
    by_cases ha : p a = true
    · rw [List.dropWhile_cons_of_pos ha]
      exact ih (noTwoSpaces_tail h)
    · rw [List.dropWhile_cons_of_neg ha]
      exact h

theorem dropWhile_id_of_head {p : Char → Bool} : ∀ (l : List Char),
    (∀ c, l.head? = some c → p c = false) → l.dropWhile p = l := by
  intro l h
  cases l with
  | nil => rfl
  | cons a rest => exact List.dropWhile_cons_of_neg (by simp [h a rfl])

theorem cleanChars_chars {l : List Char} : ∀ c ∈ cleanChars l, cleanChar c = true := by
  intro c hc
  have hc1 : c ∈ (collapseWs (removeSpecial (stripUrls l))).dropWhile pyIsSpace :=
    dropTrailing_sub _ c hc
  have hc2 : c ∈ collapseWs (removeSpecial (stripUrls l)) :=
    (List.dropWhile_sublist pyIsSpace).mem hc1
  rcases collapseAux_mem _ false c hc2 with h1 | h1
  · subst h1; decide
  · have := List.mem_filter.mp h1.1
    rcases Bool.or_eq_true _ _ ▸ this.2 with h2 | h2
    · simp [cleanChar, h2]
    · rw [h1.2] at h2; exact absurd h2 (by simp)

theorem cleanChars_noTwo {l : List Char} : noTwoSpaces (cleanChars l) = true :=
  dropTrailing_noTwo _ (dropWhile_noTwo _ (collapseAux_noTwo _ false))

theorem cleanChars_head {l : List Char} :
    ∀ c, (cleanChars l).head? = some c → pyIsSpace c = false := by
  intro c hc
  cases m : cleanChars l with
  | nil => rw [m] at hc; simp at hc
  | cons d tl =>
    rw [m] at hc
    simp only [List.head?_cons, Option.some.injEq] at hc
    subst hc
    have := dropTrailing_head _ d tl m
    exact dropWhile_head_not _ d this

theorem cleanChars_last {l : List Char} :
    ∀ c, (cleanChars l).getLast? = some c → pyIsSpace c = false :=
  fun c hc => dropTrailing_getLast _ c hc

theorem space_of_clean {c : Char} (hc : cleanChar c = true) (hs : pyIsSpace c = true) :
    c = ' ' := by
  rcases Bool.or_eq_true _ _ ▸ hc with h1 | h1
  · rw [alnum_not_space h1] at hs; exact absurd hs (by simp)
  · exact beq_iff_eq.mp h1

theorem cleanChars_id {l : List Char}
    (hch : ∀ c ∈ l, cleanChar c = true)
    (hnts : noTwoSpaces l = true)
    (hhd : ∀ c, l.head? = some c → pyIsSpace c = false)
    (hlast : ∀ c, l.getLast? = some c → pyIsSpace c = false) :
    cleanChars l = l := by
  have h1 : stripUrls l = l := stripUrls_clean hch
  have h2 : removeSpecial l = l := removeSpecial_clean hch
  have h3 : collapseWs l = l :=
    collapseAux_id l hnts (fun c hc hs => space_of_clean (hch c hc) hs)
  have h4 : l.dropWhile pyIsSpace = l := dropWhile_id_of_head l hhd
  have h5 : dropTrailing l = l := dropTrailing_id l hlast
  unfold cleanChars pyStrip collapseWs at *
  rw [h1, h2, h3, h4, h5]

/-- Claim C9: `clean_text_content` is a pure idempotent function —
`clean(clean(x)) = clean(x)` for every string — it removes every
`scheme://`-URL substring (the cleaned output cannot even contain a `:`,
so it contains no `scheme://` substring), and
`clean("Visit https://x.co now!") = "Visit now"`. -/
theorem c9_clean_text_idempotent_and_strips_urls :
    (∀ x : String, clean_text_content (clean_text_content x) = clean_text_content x) ∧
    clean_text_content "Visit https://x.co now!" = "Visit now" ∧
    (∀ x : String, ':' ∉ (clean_text_content x).data) := by
  refine ⟨?_, by decide, ?_⟩
  · intro x
    by_cases hx : x.data.isEmpty = true
    · have h0 : clean_text_content x = "" := by simp [clean_text_content, hx]
      rw [h0]
      rfl
    · have h0 : clean_text_content x = String.mk (cleanChars x.data) := by
        simp [clean_text_content, hx]
      rw [h0]
      cases m : cleanChars x.data with
      | nil =>
        show clean_text_content (String.mk []) = String.mk []
        rfl
      | cons d tl =>
        have hdata : (String.mk (d :: tl)).data = d :: tl := rfl
        have hne : (String.mk (d :: tl)).data.isEmpty = false := by simp [hdata]
        have : clean_text_content (String.mk (d :: tl)) =
            String.mk (cleanChars (d :: tl)) := by
          simp [clean_text_content, hne]
        rw [this]
        have hid : cleanChars (d :: tl) = d :: tl :=
          cleanChars_id (m ▸ @cleanChars_chars x.data) (m ▸ @cleanChars_noTwo x.data)
            (m ▸ @cleanChars_head x.data) (m ▸ @cleanChars_last x.data)
        rw [hid]
  · intro x hc
    by_cases hx : x.data.isEmpty = true
    · have h0 : clean_text_content x = "" := by simp [clean_text_content, hx]
      rw [h0] at hc
      simp at hc
    · have h0 : clean_text_content x = String.mk (cleanChars x.data) := by
        simp [clean_text_content, hx]
      rw [h0] at hc
      have := cleanChars_chars ':' hc
      simp [cleanChar, isAlnumAscii] at this

theorem innerLoop_none (loc : Location) : ∀ (kws : List String) (c : Nat),
    innerLoop loc none kws c = (kws.map (mkQueryDesc loc), c + kws.length, false) := by
  intro kws
  induction kws with
  | nil => intro c; simp [innerLoop]
  | cons kw kws ih =>
    intro c
    have hcap : capReached none (c + 1) = false := rfl
    simp only [innerLoop, hcap, Bool.false_eq_true, if_false, ih (c + 1), List.map_cons,
      List.length_cons, Prod.mk.injEq]
    refine ⟨?_, ?_, ?_⟩
    · trivial
    · omega
    · trivial

theorem innerLoop_some (loc : Location) (m : Nat) : ∀ (kws : List String) (c : Nat),
    innerLoop loc (some m) kws c =
      if m ≤ c + kws.length ∧ kws ≠ [] then
        ((kws.map (mkQueryDesc loc)).take (max (m - c) 1), c + max (m - c) 1, true)
      else (kws.map (mkQueryDesc loc), c + kws.length, false) := by
  intro kws
  induction kws with
  | nil => intro c; simp [innerLoop]
  | cons kw kws ih =>
    intro c
    by_cases hm : m ≤ c + 1
    · have hcap : capReached (some m) (c + 1) = true := by
        simp [capReached]; omega
      have hmax : max (m - c) 1 = 1 := by omega
      rw [if_pos ⟨by simp only [List.length_cons]; omega, by simp⟩]
      simp only [innerLoop, hcap, if_true, hmax, List.map_cons, List.take_succ_cons,
        List.take_zero]
    · have hcap : capReached (some m) (c + 1) = false := by
        simp [capReached]; omega
      simp only [innerLoop, hcap, Bool.false_eq_true, if_false, ih (c + 1)]
      by_cases hA : m ≤ c + 1 + kws.length ∧ kws ≠ []
      · rw [if_pos hA]
        have h1 : max (m - (c + 1)) 1 = m - (c + 1) := by omega
        have h2 : max (m - c) 1 = m - c := by omega
        rw [if_pos ⟨by simp only [List.length_cons]; omega, by simp⟩]
        simp only [h1, h2, List.map_cons, Prod.mk.injEq]
        have h3 : m - c = (m - (c + 1)) + 1 := by omega
        rw [h3, List.take_succ_cons]
        refine ⟨?_, ?_, ?_⟩
        · trivial
        · omega
        · trivial
      · rw [if_neg hA]
        have hB : ¬(m ≤ c + (kw :: kws).length ∧ kw :: kws ≠ []) := by
          intro hcon
          obtain ⟨hc1, -⟩ := hcon
          simp only [List.length_cons] at hc1
          by_cases hk : kws = []
          · subst hk
            simp only [List.length_nil] at hc1
            omega
          · have hle : ¬ m ≤ c + 1 + kws.length := fun hle => hA ⟨hle, hk⟩
            omega
        rw [if_neg hB]
        simp only [List.map_cons, List.length_cons, Prod.mk.injEq]
        refine ⟨?_, ?_, ?_⟩
        · trivial
        · omega
        · trivial

theorem crossQueries_nil (keys : List String) : crossQueries [] keys = [] := rfl

theorem crossQueries_cons (loc : Location) (locs : List Location) (keys : List String) :
    crossQueries (loc :: locs) keys = keys.map (mkQueryDesc loc) ++ crossQueries locs keys := by
  simp [crossQueries]

theorem crossQueries_length (locs : List Location) (keys : List String) :
    (crossQueries locs keys).length = locs.length * keys.length := by
  induction locs with
  | nil => simp [crossQueries]
  | cons loc rest ih =>
    rw [crossQueries_cons, List.length_append, ih]
    simp [List.length_map, Nat.succ_mul, Nat.add_comm]

theorem outerLoop_none (keys : List String) : ∀ (locs : List Location) (c : Nat),
    outerLoop keys none locs c = crossQueries locs keys := by
  intro locs
  induction locs with
  | nil => intro c; rfl
  | cons loc rest ih =>
    intro c
    rw [outerLoop, innerLoop_none]
    show keys.map (mkQueryDesc loc) ++ outerLoop keys none rest (c + keys.length) =
      crossQueries (loc :: rest) keys
    rw [ih, crossQueries_cons]

theorem outerLoop_some (keys : List String) (m : Nat) : ∀ (locs : List Location) (c : Nat),
    outerLoop keys (some m) locs c = (crossQueries locs keys).take (max (m - c) 1) := by
  intro locs
  induction locs with
  | nil => intro c; simp [outerLoop, crossQueries]
  | cons loc rest ih =>
    intro c
    rw [outerLoop, innerLoop_some, crossQueries_cons]
    by_cases hA : m ≤ c + keys.length ∧ keys ≠ []
    · rw [if_pos hA]
      show (keys.map (mkQueryDesc loc)).take (max (m - c) 1) =
        (keys.map (mkQueryDesc loc) ++ crossQueries rest keys).take (max (m - c) 1)
      have h1 : max (m - c) 1 ≤ (keys.map (mkQueryDesc loc)).length := by
        simp only [List.length_map]
        have : keys.length ≠ 0 := fun h => hA.2 (List.eq_nil_of_length_eq_zero h)
        omega
      exact (List.take_append_of_le_length h1).symm
    · rw [if_neg hA]
      show keys.map (mkQueryDesc loc) ++ outerLoop keys (some m) rest (c + keys.length) =
        (keys.map (mkQueryDesc loc) ++ crossQueries rest keys).take (max (m - c) 1)
      rw [ih]
      rcases not_and_or.mp hA with h1 | h1
      · have hgt : c + keys.length < m := by omega
        have h2 : max (m - c) 1 = m - c := by omega
        have h3 : max (m - (c + keys.length)) 1 = m - (c + keys.length) := by omega
        have h5 : (keys.map (mkQueryDesc loc)).length ≤ m - c := by
          simp only [List.length_map]; omega
        rw [h2, h3, List.take_append_eq_append_take, List.take_of_length_le h5]
        have h4 : m - c - (keys.map (mkQueryDesc loc)).length = m - (c + keys.length) := by
          simp only [List.length_map]; omega
        rw [h4]
      · push_neg at h1
        subst h1
        simp


/-- Claim C3 (counterexample): at `max_queries = 0` with one location and one
keyword, `iter_queries` yields 1 descriptor, not
`min(total_cross_product, max_queries) = 0` — the cap is only checked after a
yield, so the claimed count formula fails for the cap value 0. -/
theorem c3_counterexample_max_queries_zero :
    (iter_queries [⟨"1,2,3km", "A"⟩] ["k"] none none (some 0)).length = 1 ∧
    min (1 * 1) 0 = 0 ∧ (1 : Nat) ≠ 0 := by
  refine ⟨?_, rfl, by decide⟩
  rfl

/-- Claim C3 (amended): `iter_queries` yields the cross product of the
(possibly truncated) location and keyword lists in outer-locations /
inner-keywords order; with `max_queries = None` it yields all of it, and
with `max_queries = m` it yields the first `max m 1` descriptors — i.e.
exactly `min(total, m)` for `m >= 1`, the claimed formula, but one
descriptor (not zero) when `m = 0` and the cross product is non-empty —
stopping the instant the cap is reached, even mid-inner-loop. -/
theorem c3_amended_iter_queries_count_and_order :
    ∀ (locations : List Location) (keywords : List String)
      (maxLocations maxKeywords : Option Nat),
      (iter_queries locations keywords maxLocations maxKeywords none =
        crossQueries (truncOpt locations maxLocations) (truncOpt keywords maxKeywords)) ∧
      (∀ m : Nat,
        iter_queries locations keywords maxLocations maxKeywords (some m) =
          (crossQueries (truncOpt locations maxLocations)
            (truncOpt keywords maxKeywords)).take (max m 1) ∧
        (iter_queries locations keywords maxLocations maxKeywords (some m)).length =
          min ((truncOpt locations maxLocations).length *
            (truncOpt keywords maxKeywords).length) (max m 1)) := by
  intro locs keys ml mk
  constructor
  · exact outerLoop_none (truncOpt keys mk) (truncOpt locs ml) 0
  · intro m
    have hsome : iter_queries locs keys ml mk (some m) =
        (crossQueries (truncOpt locs ml) (truncOpt keys mk)).take (max m 1) := by
      have h := outerLoop_some (truncOpt keys mk) m (truncOpt locs ml) 0
      simpa [iter_queries] using h
    refine ⟨hsome, ?_⟩
    rw [hsome, List.length_take, crossQueries_length, Nat.min_comm]

/-- Claim C1: for every transport outcome of the primary request and of the
three fallback-auth attempts, and for either retry flag, `TwitterClient.fetch`
returns a `(response, auth_method)` pair — the embedding is a total
function, the `requests.RequestException` handler catches the only raise
site — and any outcome that is not a 200-success (primary, or salvaged via
a fallback scheme on a 401) is communicated through a returned
`{error: {message: ...}}` payload. -/
theorem c1_fetch_never_raises_error_payload :
    ∀ (primary : TransportOutcome) (altOutcome : Nat → TransportOutcome) (retryAlt : Bool),
      (∃ body, primary = .resp 200 body ∧
        fetch primary altOutcome retryAlt = (body, "Bearer Token")) ∨
      (∃ body name,
        tryAlts (altAttempts altOutcome) = some (body, name) ∧
        fetch primary altOutcome retryAlt = (body, name)) ∨
      (∃ msg, (fetch primary altOutcome retryAlt).1 = errorPayload msg) := by
  intro primary altO retry
  cases primary with
  | exn msg => right; right; exact ⟨msg, rfl⟩
  | resp code body =>
    by_cases hc : code = 200
    · subst hc
      left
      exact ⟨body, rfl, by simp [fetch]⟩
    · by_cases h401 : code = 401 ∧ retry = true
      · cases htry : tryAlts (altAttempts altO) with
        | some r =>
          obtain ⟨b, n⟩ := r
          right; left
          refine ⟨b, n, rfl, ?_⟩
          simp [fetch, hc, h401, htry]
        | none =>
          right; right
          exact ⟨"401 Unauthorized - Token may be invalid or expired",
            by simp [fetch, hc, h401, htry]⟩
      · by_cases h400 : 400 ≤ code
        · right; right
          exact ⟨"HTTP " ++ toString code ++ ": HTTPError", by simp [fetch, hc, h401, h400]⟩
        · right; right
          exact ⟨"HTTP " ++ toString code, by simp [fetch, hc, h401, h400]⟩


theorem bindOk {α β : Type} (a : α) (f : α → Except PyErr β) :
    (Except.ok a >>= f : Except PyErr β) = f a := rfl

theorem bindErr {α β : Type} (e : PyErr) (f : α → Except PyErr β) :
    ((Except.error e : Except PyErr α) >>= f) = .error e := rfl

theorem pureOk {α : Type} (a : α) : (pure a : Except PyErr α) = .ok a := rfl

theorem mapRows_ne_nil {f : PyVal → Except PyErr Row} {x : PyVal} {xs : List PyVal}
    {rows : List Row} (h : mapRows f (x :: xs) = .ok rows) : rows ≠ [] := by
  simp only [mapRows] at h
  cases hx : f x with
  | error e => rw [hx] at h; simp at h
  | ok r =>
    rw [hx] at h
    cases hxs : mapRows f xs with
    | error e => rw [hxs] at h; simp at h
    | ok rs =>
      rw [hxs] at h
      simp only [Except.ok.injEq] at h
      subst h
      simp

/-- Claim C10: whenever `flatten_one` returns normally, the returned row
list is non-empty — one sentinel row on the error and no-results paths,
one row per post otherwise (the post list is non-empty there, since an
empty extraction takes the sentinel path). -/
theorem c10_flatten_one_nonempty :
    ∀ (response : PyVal) (method : String) (q : QueryDesc) (rows : List Row),
      flatten_one response method q = .ok rows → rows ≠ [] := by
  intro response method q rows h
  cases response with
  | null => simp [flatten_one, pyContains, bindErr] at h
  | bool b => simp [flatten_one, pyContains, bindErr] at h
  | int n => simp [flatten_one, pyContains, bindErr] at h
  | str s =>
    simp only [flatten_one, pyContains, bindOk] at h
    by_cases hc : (if "error" == "" then true else (s.splitOn "error").length > 1) = true
    · rw [if_pos hc] at h
      simp [pyGetItem, bindErr] at h
    · rw [if_neg hc] at h
      simp [pyGet, bindErr] at h
  | list xs =>
    simp only [flatten_one, pyContains, bindOk] at h
    by_cases hc : (xs.any (fun x => match x with | .str s => s == "error" | _ => false)) = true
    · rw [if_pos hc] at h
      simp [pyGetItem, bindErr] at h
    · rw [if_neg hc] at h
      simp [pyGet, bindErr] at h
  | dict kvs =>
    simp only [flatten_one, pyContains, bindOk] at h
    by_cases hc : (kvs.any (fun p => p.fst == "error")) = true
    · rw [if_pos hc] at h
      simp only [pyGetItem] at h
      cases hl : dictLookup kvs "error" with
      | none => rw [hl] at h; simp [bindErr] at h
      | some e =>
        rw [hl] at h
        cases e with
        | dict ekvs =>
          simp only [bindOk, pyGet, pureOk, Except.ok.injEq] at h
          subst h
          simp
        | null => simp [bindOk, pyGet, bindErr] at h
        | bool b => simp [bindOk, pyGet, bindErr] at h
        | int n => simp [bindOk, pyGet, bindErr] at h
        | str s => simp [bindOk, pyGet, bindErr] at h
        | list l => simp [bindOk, pyGet, bindErr] at h
    · rw [if_neg hc] at h
      simp only [pyGet, bindOk] at h
      cases hrd : (dictLookup kvs "response").getD (.dict kvs) with
      | dict rkvs =>
        rw [hrd] at h
        simp only [pyGet, bindOk] at h
        by_cases ht : pyTruthy (pyOr ((dictLookup rkvs "tweets").getD
            ((dictLookup rkvs "data").getD (.list []))) (.list [])) = true
        · rw [if_neg (by simp [ht])] at h
          cases htw : pyOr ((dictLookup rkvs "tweets").getD
              ((dictLookup rkvs "data").getD (.list []))) (.list []) with
          | list items =>
            rw [htw] at h
            cases items with
            | nil => rw [htw] at ht; simp [pyTruthy] at ht
            | cons x xs => exact mapRows_ne_nil h
          | null => rw [htw] at h; simp at h
          | bool b => rw [htw] at h; simp at h
          | int n => rw [htw] at h; simp at h
          | str s => rw [htw] at h; simp at h
          | dict dkvs => rw [htw] at h; simp at h
        · rw [if_pos (by simp [Bool.not_eq_true] at ht; simp [ht])] at h
          simp only [pureOk, Except.ok.injEq] at h
          subst h
          simp
      | null => rw [hrd] at h; simp [bindErr] at h
      | bool b => rw [hrd] at h; simp [bindErr] at h
      | int n => rw [hrd] at h; simp [bindErr] at h
      | str s => rw [hrd] at h; simp [bindErr] at h
      | list l => rw [hrd] at h; simp [bindErr] at h

/-- Claim C10 witness: the theorem applied to the concrete error-payload
response, whose single sentinel row is indeed non-empty. -/
theorem c10_witness :
    ∃ rows, flatten_one (errorPayload "boom") "Bearer Token" ⟨"q", "", "", ""⟩ = .ok rows ∧
      rows ≠ [] := by
  refine ⟨[sentinelRow "q" "Bearer Token" "boom"], rfl, ?_⟩
  exact c10_flatten_one_nonempty (errorPayload "boom") "Bearer Token" ⟨"q", "", "", ""⟩
    [sentinelRow "q" "Bearer Token" "boom"] rfl


theorem pyIntOrZero_int (n : Int) : pyInt (pyOr (.int n) (.int 0)) = .ok n := by
  by_cases hn : n = 0
  · subst hn; rfl
  · have ht : pyTruthy (.int n) = true := by simp [pyTruthy, hn]
    simp [pyOr, ht, pyInt]

/-- Claim C7 (counterexample): on a post whose `replyCount` is the
non-numeric string `"abc"`, `flatten_one` does not default the count to 0 —
`int("abc")` raises `ValueError` (only `to_ordered_df`, later, coerces
non-numeric values to 0, and it never sees this row). -/
theorem c7_counterexample_nonnumeric_string_raises :
    flatten_one (countProbeResp (.str "abc") (.int 0)) "Bearer Token" ⟨"q", "", "", ""⟩ =
      .error .valueError := rfl

/-- Claim C7 (amended): `flatten_one` computes `Reply Count`/`Like Count`
as `int(x or 0)` of the first present source field: a missing or
null/falsy field defaults to 0 and an integer value passes through
unchanged (including negative values — no clamping); a non-numeric string
makes `flatten_one` raise `ValueError` instead of defaulting to 0. -/
theorem c7_amended_counts_default_zero_on_missing_or_null :
    ∀ (n : Int) (method : String) (q : QueryDesc),
      (∃ r, flatten_one (countProbeResp (.int n) .null) method q = .ok [r] ∧
        r.replyCount = n ∧ r.likeCount = 0) ∧
      (∃ r, flatten_one countAbsentResp method q = .ok [r] ∧
        r.replyCount = 0 ∧ r.likeCount = 0) ∧
      flatten_one (countProbeResp (.str "abc") (.int 0)) method q = .error .valueError := by
  intro n method q
  refine ⟨?_, ⟨_, rfl, rfl, rfl⟩, rfl⟩
  have hft : flattenTweet q.query method (countProbeTweet (.int n) .null) =
      .ok ⟨q.query, .str "", .str "", "", n, 0, .str "", .str "", .str "", false, "", method⟩ := by
    have hred : flattenTweet q.query method (countProbeTweet (.int n) .null) =
        pyInt (pyOr (.int n) (.int 0)) >>= (fun rc =>
          .ok ⟨q.query, .str "", .str "", "", rc, 0, .str "", .str "", .str "", false, "",
            method⟩) := rfl
    rw [hred, pyIntOrZero_int n, bindOk]
  have hrun : flatten_one (countProbeResp (.int n) .null) method q =
      mapRows (flattenTweet q.query method) [countProbeTweet (.int n) .null] := rfl
  rw [hrun]
  simp only [mapRows, hft]
  exact ⟨_, rfl, rfl, rfl⟩


theorem pyGet_dict (kvs : List (String × PyVal)) (k : String) (d : PyVal) :
    pyGet (.dict kvs) k d = .ok ((dictLookup kvs k).getD d) := rfl

theorem dictOrAbsent_getD {o : Option PyVal} (h : dictOrAbsent o = true) :
    ∃ kvs, o.getD (.dict []) = .dict kvs := by
  cases o with
  | none => exact ⟨[], rfl⟩
  | some v =>
    cases v with
    | dict kvs => exact ⟨kvs, rfl⟩
    | null => simp [dictOrAbsent] at h
    | bool b => simp [dictOrAbsent] at h
    | int n => simp [dictOrAbsent] at h
    | str s => simp [dictOrAbsent] at h
    | list l => simp [dictOrAbsent] at h

theorem findPredTrue {f : String × PyVal → Bool} :
    ∀ {l : List (String × PyVal)} {p : String × PyVal},
      l.find? f = some p → f p = true := by
  intro l
  induction l with
  | nil => intro p h; simp at h
  | cons a as ih =>
    intro p h
    by_cases ha : f a = true
    · rw [List.find?_cons_of_pos _ ha] at h
      simp only [Option.some.injEq] at h
      exact h ▸ ha
    · rw [List.find?_cons_of_neg _ (by simpa using ha)] at h
      exact ih h

theorem dictLookup_any {kvs : List (String × PyVal)} {k : String} {v : PyVal}
    (h : dictLookup kvs k = some v) : (kvs.any (fun p => p.fst == k)) = true := by
  simp only [dictLookup] at h
  cases hf : kvs.find? (fun p => p.fst == k) with
  | none => rw [hf] at h; simp at h
  | some p =>
    exact List.any_eq_true.mpr ⟨p, List.mem_of_find?_eq_some hf, findPredTrue hf⟩

theorem dictLookup_none_any {kvs : List (String × PyVal)} {k : String}
    (h : dictLookup kvs k = none) : (kvs.any (fun p => p.fst == k)) = false := by
  simp only [dictLookup] at h
  cases hf : kvs.find? (fun p => p.fst == k) with
  | some p => rw [hf] at h; simp at h
  | none =>
    cases ha : kvs.any (fun p => p.fst == k) with
    | false => rfl
    | true =>
      obtain ⟨p, hmem, hp⟩ := List.any_eq_true.mp ha
      exact absurd hp (by simpa using List.find?_eq_none.mp hf p hmem)

theorem dictLookup_getD_some {kvs : List (String × PyVal)} {k : String} {d v : PyVal}
    (h : (dictLookup kvs k).getD d = v) (hne : pyTruthy v = true) (hd : pyTruthy d = false) :
    dictLookup kvs k = some v := by
  cases hl : dictLookup kvs k with
  | some w => rw [hl] at h; simpa [h]
  | none =>
    rw [hl] at h
    simp only [Option.getD_none] at h
    rw [h] at hd
    rw [hd] at hne
    exact absurd hne (by simp)

theorem urlOf_ok {tkvs : List (String × PyVal)}
    (ha : dictOrAbsent (dictLookup tkvs "author") = true) :
    ∃ v, urlOf (.dict tkvs) = .ok v := by
  by_cases hu : pyTruthy ((dictLookup tkvs "url").getD (.str "")) = true
  · exact ⟨_, by simp only [urlOf, pyGet, bindOk, hu, if_true]; rfl⟩
  · by_cases hid : pyTruthy ((dictLookup tkvs "id").getD .null) = true
    · obtain ⟨akvs, hak⟩ := dictOrAbsent_getD ha
      by_cases hun : pyTruthy ((dictLookup akvs "userName").getD .null) = true
      · have hauth : dictLookup tkvs "author" = some (.dict akvs) := by
          cases hl : dictLookup tkvs "author" with
          | some w => rw [hl] at hak; simpa [hak]
          | none =>
            rw [hl] at hak
            simp only [Option.getD_none, PyVal.dict.injEq] at hak
            subst hak
            simp [dictLookup, pyTruthy] at hun
        have huser : ∃ w, dictLookup akvs "userName" = some w :=
          ⟨_, dictLookup_getD_some rfl hun rfl⟩
        have hidv : ∃ w, dictLookup tkvs "id" = some w :=
          ⟨_, dictLookup_getD_some rfl hid rfl⟩
        obtain ⟨uw, huw⟩ := huser
        obtain ⟨iw, hiw⟩ := hidv
        refine ⟨.str ("https://twitter.com/" ++ pyStr uw ++ "/status/" ++ pyStr iw), ?_⟩
        rw [huw] at hun
        rw [hiw] at hid
        simp only [Option.getD_some] at hun hid
        simp [urlOf, pyGet, pyGetItem, bindOk, pureOk, hu, hak, hauth, huw, hiw,
          hid, hun]
      · exact ⟨_, by
          simp only [urlOf, pyGet, bindOk, hu, Bool.false_eq_true, if_false,
            hid, Bool.not_eq_true', Bool.true_eq_false, hak, hun, if_true, pureOk]; rfl⟩
    · exact ⟨_, by
        simp only [urlOf, pyGet, bindOk, hu, Bool.false_eq_true, if_false,
          hid, Bool.not_eq_true', if_true, pureOk]; rfl⟩

theorem pick2_ok {tkvs : List (String × PyVal)} {primObj primField altObj altField : String}
    {d : PyVal}
    (hp : dictOrAbsent (dictLookup tkvs primObj) = true)
    (hq : dictOrAbsent (dictLookup tkvs altObj) = true) :
    ∃ v, pick2 (.dict tkvs) primObj primField altObj altField d = .ok v := by
  obtain ⟨akvs, hak⟩ := dictOrAbsent_getD hp
  obtain ⟨ukvs, huk⟩ := dictOrAbsent_getD hq
  exact ⟨_, by simp only [pick2, pyGet, bindOk, hak, huk]; rfl⟩

theorem dateOf_ok (tkvs : List (String × PyVal)) :
    ∃ v, dateOf (.dict tkvs) = .ok v := ⟨_, rfl⟩

theorem textOf_ok {tkvs : List (String × PyVal)}
    (ht : textSafe (dictLookup tkvs "text") = true) :
    ∃ v, textOf (.dict tkvs) = .ok v := by
  cases hl : dictLookup tkvs "text" with
  | none =>
    exact ⟨"", by simp only [textOf, pyGet, bindOk, hl]; rfl⟩
  | some v =>
    rw [hl] at ht
    by_cases htr : pyTruthy v = true
    · cases v with
      | str s =>
        exact ⟨clean_text_content s, by
          simp only [textOf, pyGet, bindOk, hl, Option.getD_some, pyOr, htr, if_true,
            cleanTextPy, Bool.not_true, Bool.false_eq_true, if_false]⟩
      | null => simp [pyTruthy] at htr
      | bool b => simp [textSafe, htr] at ht
      | int n => simp [textSafe, htr] at ht
      | list l => simp [textSafe, htr] at ht
      | dict kvs2 => simp [textSafe, htr] at ht
    · refine ⟨"", ?_⟩
      simp only [Bool.not_eq_true] at htr
      simp only [textOf, pyGet, bindOk, hl, Option.getD_some, pyOr, htr,
        Bool.false_eq_true, if_false]
      rfl

theorem pyInt_countSafe {v : PyVal} (h : countSafe v = true) :
    ∃ n, pyInt (pyOr v (.int 0)) = .ok n := by
  by_cases htr : pyTruthy v = true
  · cases v with
    | int n => exact ⟨n, by simp [pyOr, htr, pyInt]⟩
    | bool b => exact ⟨if b then 1 else 0, by simp [pyOr, htr, pyInt]⟩
    | str s =>
      have h2 : (pyIntParse s.data).isSome = true := by
        simp only [countSafe, htr] at h
        simpa using h
      obtain ⟨n, hn⟩ := Option.isSome_iff_exists.mp h2
      exact ⟨n, by simp [pyOr, htr, pyInt, hn]⟩
    | null => simp [pyTruthy] at htr
    | list l => simp [countSafe, htr] at h
    | dict kvs2 => simp [countSafe, htr] at h
  · simp only [Bool.not_eq_true] at htr
    exact ⟨0, by simp [pyOr, htr, pyInt]⟩

theorem countOf_ok {tkvs : List (String × PyVal)} {camel snake : String}
    (hpm : dictOrAbsent (dictLookup tkvs "public_metrics") = true)
    (hc : countSafe (resolvedCount tkvs camel snake) = true) :
    ∃ n, countOf (.dict tkvs) camel snake = .ok n := by
  obtain ⟨pkvs, hpk⟩ := dictOrAbsent_getD hpm
  have hres : resolvedCount tkvs camel snake =
      (dictLookup tkvs camel).getD ((dictLookup pkvs snake).getD (.int 0)) := by
    simp only [resolvedCount, hpk]
  obtain ⟨n, hn⟩ := pyInt_countSafe (hres ▸ hc)
  exact ⟨n, by simp only [countOf, pyGet, bindOk, hpk, hn]⟩

theorem flattenTweet_ok {tw : PyVal} (qtext method : String)
    (hs : safeTweet tw = true) : ∃ r, flattenTweet qtext method tw = .ok r := by
  cases tw with
  | dict tkvs =>
    simp only [safeTweet, Bool.and_eq_true] at hs
    obtain ⟨⟨⟨⟨⟨ha, hu⟩, hpm⟩, htx⟩, hrc⟩, hlc⟩ := hs
    obtain ⟨url, hurl⟩ := urlOf_ok ha
    obtain ⟨date, hdate⟩ := dateOf_ok tkvs
    obtain ⟨tb, htb⟩ := @pick2_ok tkvs "author" "name" "user" "name" (.str "") ha hu
    obtain ⟨txt, htxt⟩ := textOf_ok htx
    obtain ⟨rc, hrcv⟩ := @countOf_ok tkvs "replyCount" "reply_count" hpm hrc
    obtain ⟨lc, hlcv⟩ := @countOf_ok tkvs "likeCount" "like_count" hpm hlc
    obtain ⟨pn, hpn⟩ := @pick2_ok tkvs "author" "userName" "user" "screen_name"
      (.str "") ha hu
    obtain ⟨pd, hpd⟩ := @pick2_ok tkvs "author" "description" "user" "description"
      (.str "") ha hu
    exact ⟨_, by
      simp only [flattenTweet, hurl, hdate, htb, htxt, hrcv, hlcv, hpn, hpd, bindOk,
        pureOk]; rfl⟩
  | null => simp [safeTweet] at hs
  | bool b => simp [safeTweet] at hs
  | int n => simp [safeTweet] at hs
  | str s => simp [safeTweet] at hs
  | list l => simp [safeTweet] at hs

theorem mapRows_ok {qtext method : String} : ∀ (items : List PyVal),
    (∀ tw ∈ items, safeTweet tw = true) →
    ∃ rows, mapRows (flattenTweet qtext method) items = .ok rows := by
  intro items
  induction items with
  | nil => intro _; exact ⟨[], rfl⟩
  | cons x xs ih =>
    intro h
    obtain ⟨r, hr⟩ := flattenTweet_ok qtext method (h x (List.mem_cons_self _ _))
    obtain ⟨rows, hrows⟩ := ih (fun tw htw => h tw (List.mem_cons_of_mem _ htw))
    exact ⟨r :: rows, by simp only [mapRows, hr, hrows]⟩

/-- Claim C4 (counterexample): on the response `{"error": "boom"}` — an
`error` field that is not an object — `flatten_one` raises
`AttributeError` (`"boom".get(...)`) instead of recovering. -/
theorem c4_counterexample_error_string_raises :
    flatten_one (.dict [("error", .str "boom")]) "Bearer Token" ⟨"q", "", "", ""⟩ =
      .error .attributeError := rfl

/-- Claim C4 (amended): `flatten_one` recovers without raising on the
well-shaped response family `safeResponse` — dict responses whose `error`
value, when present, is a dict (a missing `message` inside it is fine);
otherwise whose post list, extracted from the `response`/`tweets`/`data`
nestings, is absent/falsy or a list of posts whose `author`/`user`/
`public_metrics` fields are dicts or absent, whose `text` is a string or
falsy, and whose resolved count fields are absent, falsy, numeric, or
numeric strings.  Outside this family it can raise: the error branch is
entered on key presence, so any present `error` value that is not a dict
raises — the string of the counterexample, and also `None` — as does a
non-dict response or post, a truthy non-string `text`, or a non-numeric
count string. -/
theorem c4_amended_safe_shapes_never_raise :
    ∀ (r : PyVal) (method : String) (q : QueryDesc),
      safeResponse r = true → ∃ rows, flatten_one r method q = .ok rows := by
  intro r method q hsafe
  cases r with
  | dict kvs =>
    cases herr : dictLookup kvs "error" with
    | some e =>
      cases e with
      | dict ekvs =>
        have hany := dictLookup_any herr
        have hres : flatten_one (PyVal.dict kvs) method q =
            .ok [sentinelRow q.query method
              (pyStr ((dictLookup ekvs "message").getD (.dict ekvs)))] := by
          simp only [flatten_one, pyContains, bindOk, hany, if_true,
            pyGetItem, herr, pyGet, pureOk]
        exact ⟨_, hres⟩
      | null => simp [safeResponse, herr] at hsafe
      | bool b => simp [safeResponse, herr] at hsafe
      | int n => simp [safeResponse, herr] at hsafe
      | str s => simp [safeResponse, herr] at hsafe
      | list l => simp [safeResponse, herr] at hsafe
    | none =>
      have hany := dictLookup_none_any herr
      cases hrd : (dictLookup kvs "response").getD (.dict kvs) with
      | dict rkvs =>
        by_cases ht : pyTruthy (pyOr ((dictLookup rkvs "tweets").getD
            ((dictLookup rkvs "data").getD (.list []))) (.list [])) = true
        · cases htw : pyOr ((dictLookup rkvs "tweets").getD
              ((dictLookup rkvs "data").getD (.list []))) (.list []) with
          | list items =>
            have ht2 : pyTruthy (PyVal.list items) = true := by rw [htw] at ht; exact ht
            have hall : ∀ tw ∈ items, safeTweet tw = true := by
              have hs2 := hsafe
              simp only [safeResponse, herr, hrd, htw, ht2, Bool.not_true,
                Bool.false_eq_true, if_false] at hs2
              exact fun tw htw2 => List.all_eq_true.mp hs2 tw htw2
            obtain ⟨rows, hrows⟩ := @mapRows_ok q.query method items hall
            refine ⟨rows, ?_⟩
            simp only [flatten_one, pyContains, bindOk, hany, Bool.false_eq_true,
              if_false, pyGet, hrd, htw, ht2, Bool.not_true, iterTweets]
            exact hrows
          | null => rw [htw] at ht; simp [pyTruthy] at ht
          | bool b =>
            have ht2 : pyTruthy (PyVal.bool b) = true := by rw [htw] at ht; exact ht
            have hs2 := hsafe
            simp only [safeResponse, herr, hrd, htw, ht2, Bool.not_true,
              Bool.false_eq_true, if_false] at hs2
          | int n =>
            have ht2 : pyTruthy (PyVal.int n) = true := by rw [htw] at ht; exact ht
            have hs2 := hsafe
            simp only [safeResponse, herr, hrd, htw, ht2, Bool.not_true,
              Bool.false_eq_true, if_false] at hs2
          | str s =>
            have ht2 : pyTruthy (PyVal.str s) = true := by rw [htw] at ht; exact ht
            have hs2 := hsafe
            simp only [safeResponse, herr, hrd, htw, ht2, Bool.not_true,
              Bool.false_eq_true, if_false] at hs2
          | dict dkvs =>
            have ht2 : pyTruthy (PyVal.dict dkvs) = true := by rw [htw] at ht; exact ht
            have hs2 := hsafe
            simp only [safeResponse, herr, hrd, htw, ht2, Bool.not_true,
              Bool.false_eq_true, if_false] at hs2
        · simp only [Bool.not_eq_true] at ht
          have hres : flatten_one (PyVal.dict kvs) method q =
              .ok [sentinelRow q.query method ""] := by
            simp only [flatten_one, pyContains, bindOk, hany, Bool.false_eq_true,
              if_false, pyGet, hrd, ht, Bool.not_false, if_true, pureOk]
          exact ⟨_, hres⟩
      | null => simp [safeResponse, herr, hrd] at hsafe
      | bool b => simp [safeResponse, herr, hrd] at hsafe
      | int n => simp [safeResponse, herr, hrd] at hsafe
      | str s => simp [safeResponse, herr, hrd] at hsafe
      | list l => simp [safeResponse, herr, hrd] at hsafe
  | null => simp [safeResponse] at hsafe
  | bool b => simp [safeResponse] at hsafe
  | int n => simp [safeResponse] at hsafe
  | str s => simp [safeResponse] at hsafe
  | list l => simp [safeResponse] at hsafe

/-- Claim C4 witness: the amended theorem applied to a concrete well-shaped
one-post response. -/
theorem c4_amended_witness :
    safeResponse (.dict [("tweets", .list [.dict [("id", .int 5)]])]) = true ∧
    ∃ rows, flatten_one (.dict [("tweets", .list [.dict [("id", .int 5)]])])
      "Bearer Token" ⟨"q", "", "", ""⟩ = .ok rows :=
  ⟨rfl, c4_amended_safe_shapes_never_raise
    (.dict [("tweets", .list [.dict [("id", .int 5)]])]) "Bearer Token"
    ⟨"q", "", "", ""⟩ rfl⟩


theorem countHeaders_append (a b : List Line) :
    countHeaders (a ++ b) = countHeaders a + countHeaders b := by
  simp [countHeaders, List.countP_append]

theorem countHeaders_of_all_data {tl : List Line} (h : tl.all isDataLine = true) :
    countHeaders tl = 0 := by
  rw [countHeaders, List.countP_eq_zero]
  intro l hl
  have := List.all_eq_true.mp h l hl
  simp [this]

theorem to_ordered_df_all (b : List Row) :
    ∀ r ∈ to_ordered_df b, r.noResults = false := by
  intro r hr
  have := (List.mem_filter.mp hr).2
  simpa using this

theorem StepExt_same {s s' : LoopState} (hf : s'.file = s.file)
    (hw : s'.headerWritten = s.headerWritten) : StepExt s s' := by
  refine ⟨[], by simp [hf], rfl, by simp [countHeaders], ?_, ?_⟩
  · intro h
    exact ⟨hw ▸ h, rfl⟩
  · intro h
    exact ⟨rfl, hw ▸ h⟩

theorem StepExt_trans {a b c : LoopState} (h1 : StepExt a b) (h2 : StepExt b c) :
    StepExt a c := by
  obtain ⟨tl1, hf1, hok1, hcnt1, h41, h51⟩ := h1
  obtain ⟨tl2, hf2, hok2, hcnt2, h42, h52⟩ := h2
  refine ⟨tl1 ++ tl2, by rw [hf2, hf1, List.append_assoc], ?_, ?_, ?_, ?_⟩
  · simp only [List.all_append, Bool.and_eq_true]
    exact ⟨hok1, hok2⟩
  · rw [countHeaders_append]
    by_cases ha : a.headerWritten = true
    · obtain ⟨hb, hd1⟩ := h41 ha
      rw [ha] at hcnt1
      rw [hb] at hcnt2
      simp only [if_true] at hcnt1 hcnt2
      simp [ha]
      omega
    · simp only [Bool.not_eq_true] at ha
      rw [ha] at hcnt1
      simp only [Bool.false_eq_true, if_false] at hcnt1
      rw [ha]
      simp only [Bool.false_eq_true, if_false]
      by_cases hb : b.headerWritten = true
      · rw [hb] at hcnt2
        simp only [if_true] at hcnt2
        omega
      · simp only [Bool.not_eq_true] at hb
        obtain ⟨htl1, -⟩ := h51 hb
        subst htl1
        rw [hb] at hcnt2
        simp only [Bool.false_eq_true, if_false] at hcnt2
        simpa [countHeaders] using hcnt2
  · intro ha
    obtain ⟨hb, hd1⟩ := h41 ha
    obtain ⟨hc, hd2⟩ := h42 hb
    refine ⟨hc, ?_⟩
    simp only [List.all_append, Bool.and_eq_true]
    exact ⟨hd1, hd2⟩
  · intro hc
    obtain ⟨htl2, hb⟩ := h52 hc
    obtain ⟨htl1, ha⟩ := h51 hb
    subst htl1
    subst htl2
    exact ⟨rfl, ha⟩

theorem flushStep_ext (w : Nat → Bool) (s : LoopState) :
    StepExt s (resState (flushStep w s)) := by
  unfold flushStep
  by_cases hdf : (to_ordered_df s.batch).isEmpty = true
  · rw [if_pos hdf]
    exact StepExt_same rfl rfl
  · rw [if_neg hdf]
    by_cases hw : w s.writeIdx = true
    · rw [if_pos hw]
      refine ⟨(if s.headerWritten then [] else [Line.header]) ++
        (to_ordered_df s.batch).map Line.data, List.append_assoc s.file _ _, ?_, ?_, ?_, ?_⟩
      · simp only [List.all_append, Bool.and_eq_true]
        constructor
        · by_cases h : s.headerWritten = true <;> simp [h, lineOk]
        · rw [List.all_eq_true]
          intro l hl
          obtain ⟨r, hr, rfl⟩ := List.mem_map.mp hl
          simp [lineOk, to_ordered_df_all s.batch r hr]
      · rw [countHeaders_append]
        have hdata : countHeaders ((to_ordered_df s.batch).map Line.data) = 0 := by
          apply countHeaders_of_all_data
          rw [List.all_eq_true]
          intro l hl
          obtain ⟨r, hr, rfl⟩ := List.mem_map.mp hl
          rfl
        rw [hdata]
        by_cases h : s.headerWritten = true
        · simp [h, countHeaders]
        · simp only [h, Bool.false_eq_true, if_false]
          decide
      · intro h
        rw [h]
        refine ⟨rfl, ?_⟩
        simp only [if_true, List.nil_append]
        rw [List.all_eq_true]
        intro l hl
        obtain ⟨r, hr, rfl⟩ := List.mem_map.mp hl
        rfl
      · intro h
        simp [resState] at h
    · rw [if_neg hw]
      exact StepExt_same rfl rfl

theorem queryStep_ext (fetchO : String → PyVal × String) (w : Nat → Bool)
    (cfg : RunConfig) (q : QueryDesc) (s : LoopState) :
    StepExt s (resState (queryStep fetchO w cfg q s)) := by
  simp only [queryStep]
  cases hfl : flatten_one (fetchO q.query).1 (fetchO q.query).2 q with
  | error e => exact StepExt_same rfl rfl
  | ok rows =>
    dsimp only
    by_cases hb : cfg.batchSize ≤ (s.batch ++ rows.filter goodRow).length
    · rw [if_pos hb]
      exact StepExt_trans (StepExt_same rfl rfl) (flushStep_ext w _)
    · rw [if_neg hb]
      exact StepExt_same rfl rfl

theorem runLoop_ext (fetchO : String → PyVal × String) (w : Nat → Bool)
    (cfg : RunConfig) : ∀ (qs : List QueryDesc) (s : LoopState),
    StepExt s (resState (runLoop fetchO w cfg qs s)) := by
  intro qs
  induction qs with
  | nil => intro s; exact StepExt_same rfl rfl
  | cons q rest ih =>
    intro s
    unfold runLoop
    cases hq : queryStep fetchO w cfg q s with
    | error e =>
      have := queryStep_ext fetchO w cfg q s
      rw [hq] at this
      exact this
    | ok s' =>
      have h1 := queryStep_ext fetchO w cfg q s
      rw [hq] at h1
      exact StepExt_trans h1 (ih s')

theorem finalFlush_fin (w : Nat → Bool) (s : LoopState) :
    FinExt s (resState (finalFlush w s)) := by
  unfold finalFlush
  by_cases hb : s.batch.isEmpty = true
  · rw [if_pos hb]
    exact ⟨[], by simp [resState], rfl, by simp [countHeaders], fun _ => rfl⟩
  · rw [if_neg hb]
    by_cases hdf : (to_ordered_df s.batch).isEmpty = true
    · rw [if_pos hdf]
      exact ⟨[], by simp [resState], rfl, by simp [countHeaders], fun _ => rfl⟩
    · rw [if_neg hdf]
      by_cases hw : w s.writeIdx = true
      · rw [if_pos hw]
        refine ⟨(if s.headerWritten then [] else [Line.header]) ++
          (to_ordered_df s.batch).map Line.data, List.append_assoc s.file _ _, ?_, ?_, ?_⟩
        · simp only [List.all_append, Bool.and_eq_true]
          constructor
          · by_cases h : s.headerWritten = true <;> simp [h, lineOk]
          · rw [List.all_eq_true]
            intro l hl
            obtain ⟨r, hr, rfl⟩ := List.mem_map.mp hl
            simp [lineOk, to_ordered_df_all s.batch r hr]
        · rw [countHeaders_append]
          have hdata : countHeaders ((to_ordered_df s.batch).map Line.data) = 0 := by
            apply countHeaders_of_all_data
            rw [List.all_eq_true]
            intro l hl
            obtain ⟨r, hr, rfl⟩ := List.mem_map.mp hl
            rfl
          rw [hdata]
          by_cases h : s.headerWritten = true
          · simp [h, countHeaders]
          · simp only [h, Bool.false_eq_true, if_false]
            decide
        · intro h
          rw [h]
          simp only [if_true, List.nil_append]
          rw [List.all_eq_true]
          intro l hl
          obtain ⟨r, hr, rfl⟩ := List.mem_map.mp hl
          rfl
      · rw [if_neg hw]
        exact ⟨[], by simp [resState], rfl, by simp [countHeaders], fun _ => rfl⟩


theorem StepExt_toFin {a b : LoopState} (h : StepExt a b) : FinExt a b := by
  obtain ⟨tl, hf, hok, hcnt, h4, -⟩ := h
  exact ⟨tl, hf, hok, hcnt, fun ha => (h4 ha).2⟩

theorem StepExt_FinExt_trans {a b c : LoopState} (h1 : StepExt a b) (h2 : FinExt b c) :
    FinExt a c := by
  obtain ⟨tl1, hf1, hok1, hcnt1, h41, h51⟩ := h1
  obtain ⟨tl2, hf2, hok2, hcnt2, h42⟩ := h2
  refine ⟨tl1 ++ tl2, by rw [hf2, hf1, List.append_assoc], ?_, ?_, ?_⟩
  · simp only [List.all_append, Bool.and_eq_true]
    exact ⟨hok1, hok2⟩
  · rw [countHeaders_append]
    by_cases ha : a.headerWritten = true
    · obtain ⟨hb, hd1⟩ := h41 ha
      rw [ha] at hcnt1
      rw [hb] at hcnt2
      simp only [if_true] at hcnt1 hcnt2
      simp [ha]
      omega
    · simp only [Bool.not_eq_true] at ha
      rw [ha] at hcnt1
      simp only [Bool.false_eq_true, if_false] at hcnt1
      rw [ha]
      simp only [Bool.false_eq_true, if_false]
      by_cases hb : b.headerWritten = true
      · rw [hb] at hcnt2
        simp only [if_true] at hcnt2
        omega
      · simp only [Bool.not_eq_true] at hb
        obtain ⟨htl1, -⟩ := h51 hb
        subst htl1
        rw [hb] at hcnt2
        simp only [Bool.false_eq_true, if_false] at hcnt2
        simpa [countHeaders] using hcnt2
  · intro ha
    obtain ⟨hb, hd1⟩ := h41 ha
    have hd2 := h42 hb
    simp only [List.all_append, Bool.and_eq_true]
    exact ⟨hd1, hd2⟩

/-- The store-evolution facts of one whole run, relative to the initial
store: the run only appends; appended data rows never have
`No Results=True`; at most one header is appended and only when the
initial store was empty; when the initial store was non-empty only data
rows are appended. -/
theorem pipeline_ext (fetchO : String → PyVal × String) (w : Nat → Bool)
    (locs : List Location) (keys : List String) (cfg : RunConfig) (initFile : List Line) :
    ∃ tl, resultFile (run_pipeline_streaming fetchO w locs keys cfg initFile) =
        initFile ++ tl ∧
      tl.all lineOk = true ∧
      countHeaders tl ≤ (if initFile.isEmpty then 1 else 0) ∧
      (initFile.isEmpty = false → tl.all isDataLine = true) := by
  simp only [run_pipeline_streaming]
  have hfin : ∀ res : Except (PipeErr × LoopState) (RunStats × List Line),
      ∀ sF : LoopState,
      FinExt ⟨[], !initFile.isEmpty, initFile, ⟨0, 0, 0, 0, []⟩, 0⟩ sF →
      resultFile res = sF.file →
      ∃ tl, resultFile res = initFile ++ tl ∧
        tl.all lineOk = true ∧
        countHeaders tl ≤ (if initFile.isEmpty then 1 else 0) ∧
        (initFile.isEmpty = false → tl.all isDataLine = true) := by
    intro res sF hF hres
    obtain ⟨tl, hf, hok, hcnt, h4⟩ := hF
    refine ⟨tl, by rw [hres, hf], hok, ?_, ?_⟩
    · cases hie : initFile.isEmpty with
      | true => rw [hie] at hcnt; simpa using hcnt
      | false => rw [hie] at hcnt; simpa using hcnt
    · intro hie
      exact h4 (by simp [hie])
  cases hrl : runLoop fetchO w cfg
      (iter_queries locs keys cfg.maxLocations cfg.maxKeywords cfg.maxQueries)
      ⟨[], !initFile.isEmpty, initFile, ⟨0, 0, 0, 0, []⟩, 0⟩ with
  | error e =>
    have hstep := runLoop_ext fetchO w cfg
      (iter_queries locs keys cfg.maxLocations cfg.maxKeywords cfg.maxQueries)
      ⟨[], !initFile.isEmpty, initFile, ⟨0, 0, 0, 0, []⟩, 0⟩
    rw [hrl] at hstep
    exact hfin _ e.2 (StepExt_toFin hstep) rfl
  | ok s1 =>
    have hstep := runLoop_ext fetchO w cfg
      (iter_queries locs keys cfg.maxLocations cfg.maxKeywords cfg.maxQueries)
      ⟨[], !initFile.isEmpty, initFile, ⟨0, 0, 0, 0, []⟩, 0⟩
    rw [hrl] at hstep
    cases hff : finalFlush w s1 with
    | error e2 =>
      have hfe := finalFlush_fin w s1
      rw [hff] at hfe
      refine hfin _ e2.2 (StepExt_FinExt_trans hstep hfe) ?_
      show resultFile (match finalFlush w s1 with
        | .error e => .error e
        | .ok s' => .ok (s'.stats, s'.file)) = e2.2.file
      rw [hff]
      rfl
    | ok s2 =>
      have hfe := finalFlush_fin w s1
      rw [hff] at hfe
      refine hfin _ s2 (StepExt_FinExt_trans hstep hfe) ?_
      show resultFile (match finalFlush w s1 with
        | .error e => .error e
        | .ok s' => .ok (s'.stats, s'.file)) = s2.file
      rw [hff]
      rfl

/-- Claim C5: the run only appends to the store, appends at most one
header line when the store was missing or empty at run start, and appends
no header at all — only data rows — when the store already had content
(so re-running against an existing non-empty output file appends data rows
without a second header, and a file produced by runs that started from an
absent/empty store holds at most one header line). -/
theorem c5_header_written_at_most_once :
    ∀ (fetchO : String → PyVal × String) (writeOk : Nat → Bool)
      (locations : List Location) (keywords : List String) (cfg : RunConfig)
      (initFile : List Line),
      ∃ tl, resultFile (run_pipeline_streaming fetchO writeOk locations keywords cfg
          initFile) = initFile ++ tl ∧
        countHeaders tl ≤ (if initFile.isEmpty then 1 else 0) ∧
        tl.all (fun l => isDataLine l || initFile.isEmpty) = true := by
  intro fetchO w locs keys cfg initFile
  obtain ⟨tl, hf, hok, hcnt, hdata⟩ := pipeline_ext fetchO w locs keys cfg initFile
  refine ⟨tl, hf, hcnt, ?_⟩
  cases hie : initFile.isEmpty with
  | true =>
    rw [List.all_eq_true]
    intro l _
    simp [hie]
  | false =>
    have := hdata hie
    rw [List.all_eq_true] at this ⊢
    intro l hl
    simp [this l hl]

/-- Claim C6: no row with `No Results=True` is ever appended to the
persisted store (they are filtered before the batch and again by
`to_ordered_df`), and flushing an empty buffer — threshold flush or final
flush — leaves the state unchanged: no file write, no header, the write
oracle not even consulted. -/
theorem c6_no_noresults_rows_written_and_empty_flush_noop :
    ∀ (fetchO : String → PyVal × String) (writeOk : Nat → Bool)
      (locations : List Location) (keywords : List String) (cfg : RunConfig)
      (initFile : List Line),
      (∃ tl, resultFile (run_pipeline_streaming fetchO writeOk locations keywords cfg
          initFile) = initFile ++ tl ∧ tl.all lineOk = true) ∧
      (∀ (hw : Bool) (f : List Line) (st : RunStats) (i : Nat),
        flushStep writeOk ⟨[], hw, f, st, i⟩ = .ok ⟨[], hw, f, st, i⟩ ∧
        finalFlush writeOk ⟨[], hw, f, st, i⟩ = .ok ⟨[], hw, f, st, i⟩) := by
  intro fetchO w locs keys cfg initFile
  constructor
  · obtain ⟨tl, hf, hok, -, -⟩ := pipeline_ext fetchO w locs keys cfg initFile
    exact ⟨tl, hf, hok⟩
  · intro hw f st i
    exact ⟨rfl, rfl⟩


theorem flushStep_fail {w : Nat → Bool} {s s' : LoopState} {e : PipeErr}
    (h : flushStep w s = .error (e, s')) : e = .writeFail ∧ s'.batch = s.batch ∧ s.batch ≠ [] := by
  unfold flushStep at h
  by_cases hdf : (to_ordered_df s.batch).isEmpty = true
  · rw [if_pos hdf] at h; simp at h
  · rw [if_neg hdf] at h
    by_cases hw : w s.writeIdx = true
    · rw [if_pos hw] at h; simp at h
    · rw [if_neg hw] at h
      simp only [Except.error.injEq, Prod.mk.injEq] at h
      refine ⟨h.1.symm, by rw [← h.2], ?_⟩
      intro hnil
      rw [hnil] at hdf
      exact hdf rfl

theorem finalFlush_fail {w : Nat → Bool} {s s' : LoopState} {e : PipeErr}
    (h : finalFlush w s = .error (e, s')) : e = .writeFail ∧ s'.batch = s.batch ∧ s.batch ≠ [] := by
  unfold finalFlush at h
  by_cases hb : s.batch.isEmpty = true
  · rw [if_pos hb] at h; simp at h
  · rw [if_neg hb] at h
    by_cases hdf : (to_ordered_df s.batch).isEmpty = true
    · rw [if_pos hdf] at h; simp at h
    · rw [if_neg hdf] at h
      by_cases hw : w s.writeIdx = true
      · rw [if_pos hw] at h; simp at h
      · rw [if_neg hw] at h
        simp only [Except.error.injEq, Prod.mk.injEq] at h
        refine ⟨h.1.symm, by rw [← h.2], ?_⟩
        intro hnil
        rw [hnil] at hb
        exact hb rfl

theorem queryStep_fail {fetchO : String → PyVal × String} {w : Nat → Bool}
    {cfg : RunConfig} {q : QueryDesc} {s s' : LoopState}
    (h : queryStep fetchO w cfg q s = .error (.writeFail, s')) : s'.batch ≠ [] := by
  simp only [queryStep] at h
  cases hfl : flatten_one (fetchO q.query).1 (fetchO q.query).2 q with
  | error e =>
    rw [hfl] at h
    simp at h
  | ok rows =>
    rw [hfl] at h
    dsimp only at h
    by_cases hb : cfg.batchSize ≤ (s.batch ++ rows.filter goodRow).length
    · rw [if_pos hb] at h
      obtain ⟨-, hbatch, hne⟩ := flushStep_fail h
      rw [hbatch]
      exact hne
    · rw [if_neg hb] at h
      simp at h

theorem runLoop_fail {fetchO : String → PyVal × String} {w : Nat → Bool}
    {cfg : RunConfig} : ∀ {qs : List QueryDesc} {s s' : LoopState},
    runLoop fetchO w cfg qs s = .error (.writeFail, s') → s'.batch ≠ [] := by
  intro qs
  induction qs with
  | nil => intro s s' h; simp [runLoop] at h
  | cons q rest ih =>
    intro s s' h
    unfold runLoop at h
    cases hq : queryStep fetchO w cfg q s with
    | error e =>
      rw [hq] at h
      simp only [Except.error.injEq] at h
      rw [h] at hq
      exact queryStep_fail hq
    | ok s1 =>
      rw [hq] at h
      exact ih h

/-- Claim C2 (counterexample): a concrete run — one query returning one
post, `batch_size = 1`, a store write that fails — aborts with the
persistence failure while the in-memory batch buffer still holds that
batch's single row: `batch.clear()` (line 405) sits after `to_csv` with no
`finally`, so it is skipped when the write raises, contradicting "the
buffer is empty afterwards". -/
theorem c2_counterexample_failed_flush_buffer_not_cleared :
    isWriteFailure (run_pipeline_streaming (fun _ => (sampleOkResp, "Bearer Token"))
      (fun _ => false) [⟨"10,20,5km", "X"⟩] ["a"] ⟨1, none, none, none⟩ []) = true ∧
    (resultBuffer (run_pipeline_streaming (fun _ => (sampleOkResp, "Bearer Token"))
      (fun _ => false) [⟨"10,20,5km", "X"⟩] ["a"] ⟨1, none, none, none⟩ [])).length = 1 ∧
    resultBuffer (run_pipeline_streaming (fun _ => (sampleOkResp, "Bearer Token"))
      (fun _ => false) [⟨"10,20,5km", "X"⟩] ["a"] ⟨1, none, none, none⟩ []) ≠ [] := by
  refine ⟨rfl, rfl, ?_⟩
  intro hnil
  have hlen : (resultBuffer (run_pipeline_streaming (fun _ => (sampleOkResp, "Bearer Token"))
      (fun _ => false) [⟨"10,20,5km", "X"⟩] ["a"] ⟨1, none, none, none⟩ [])).length = 1 := rfl
  rw [hnil] at hlen
  simp at hlen

theorem run_writeFail {fetchO : String → PyVal × String} {w : Nat → Bool}
    {locs : List Location} {keys : List String} {cfg : RunConfig}
    {initFile : List Line} {s' : LoopState}
    (h : run_pipeline_streaming fetchO w locs keys cfg initFile =
      .error (.writeFail, s')) : s'.batch ≠ [] := by
  simp only [run_pipeline_streaming] at h
  cases hrl : runLoop fetchO w cfg
      (iter_queries locs keys cfg.maxLocations cfg.maxKeywords cfg.maxQueries)
      ⟨[], !initFile.isEmpty, initFile, ⟨0, 0, 0, 0, []⟩, 0⟩ with
  | error e =>
    rw [hrl] at h
    dsimp only at h
    simp only [Except.error.injEq] at h
    rw [h] at hrl
    exact runLoop_fail hrl
  | ok s1 =>
    rw [hrl] at h
    dsimp only at h
    cases hff : finalFlush w s1 with
    | error e2 =>
      rw [hff] at h
      dsimp only at h
      simp only [Except.error.injEq] at h
      rw [h] at hff
      obtain ⟨-, hbatch, hne⟩ := finalFlush_fail hff
      rw [hbatch]
      exact hne
    | ok s2 =>
      rw [hff] at h
      simp at h

/-- Claim C2 (amended): a persistence failure during a flush propagates to
the caller of `run_pipeline_streaming` (the run result is that error —
only `MemoryError` is caught), and the in-memory batch buffer is NOT
cleared on that path: at the raise point it still holds the non-empty
batch whose write failed (`batch.clear()` follows `to_csv` with no
`finally`), so that batch's rows are lost with the aborted run rather
than cleared after the attempt. -/
theorem c2_amended_failed_flush_propagates_buffer_retained :
    ∀ (fetchO : String → PyVal × String) (writeOk : Nat → Bool)
      (locations : List Location) (keywords : List String) (cfg : RunConfig)
      (initFile : List Line),
      isWriteFailure (run_pipeline_streaming fetchO writeOk locations keywords cfg
        initFile) = true →
      resultBuffer (run_pipeline_streaming fetchO writeOk locations keywords cfg
        initFile) ≠ [] := by
  intro fetchO w locs keys cfg initFile h
  cases hr : run_pipeline_streaming fetchO w locs keys cfg initFile with
  | ok v =>
    rw [hr] at h
    simp [isWriteFailure] at h
  | error e =>
    obtain ⟨pe, sE⟩ := e
    cases pe with
    | flattenRaise e2 =>
      rw [hr] at h
      simp [isWriteFailure] at h
    | writeFail =>
      show sE.batch ≠ []
      exact run_writeFail hr

/-- Claim C2 witness: the amended theorem applied to the concrete failing
run of the counterexample. -/
theorem c2_amended_witness :
    resultBuffer (run_pipeline_streaming (fun _ => (sampleOkResp, "Bearer Token"))
      (fun _ => false) [⟨"10,20,5km", "X"⟩] ["a"] ⟨1, none, none, none⟩ []) ≠ [] :=
  c2_amended_failed_flush_propagates_buffer_retained
    (fun _ => (sampleOkResp, "Bearer Token")) (fun _ => false)
    [⟨"10,20,5km", "X"⟩] ["a"] ⟨1, none, none, none⟩ [] rfl


theorem trackError_le {rows : List Row} {es : List String} (h : es.length ≤ 5) :
    (trackError rows es).length ≤ 5 := by
  cases rows with
  | nil => exact h
  | cons r rest =>
    simp only [trackError]
    by_cases h1 : (r.error == "") = true
    · rw [if_pos h1]; exact h
    · rw [if_neg h1]
      by_cases h2 : es.length < 5
      · rw [if_pos h2]
        simp only [List.length_append, List.length_singleton]
        omega
      · rw [if_neg h2]; exact h

theorem flushStep_errs (w : Nat → Bool) (s : LoopState) :
    (resState (flushStep w s)).stats.errorsSample = s.stats.errorsSample := by
  unfold flushStep
  by_cases hdf : (to_ordered_df s.batch).isEmpty = true
  · rw [if_pos hdf]
    rfl
  · rw [if_neg hdf]
    by_cases hw : w s.writeIdx = true
    · rw [if_pos hw]
      rfl
    · rw [if_neg hw]
      rfl

theorem finalFlush_errs (w : Nat → Bool) (s : LoopState) :
    (resState (finalFlush w s)).stats.errorsSample = s.stats.errorsSample := by
  unfold finalFlush
  by_cases hb : s.batch.isEmpty = true
  · rw [if_pos hb]
    rfl
  · rw [if_neg hb]
    by_cases hdf : (to_ordered_df s.batch).isEmpty = true
    · rw [if_pos hdf]
      rfl
    · rw [if_neg hdf]
      by_cases hw : w s.writeIdx = true
      · rw [if_pos hw]
        rfl
      · rw [if_neg hw]
        rfl

theorem queryStep_errs (fetchO : String → PyVal × String) (w : Nat → Bool)
    (cfg : RunConfig) (q : QueryDesc) (s : LoopState)
    (h : s.stats.errorsSample.length ≤ 5) :
    (resState (queryStep fetchO w cfg q s)).stats.errorsSample.length ≤ 5 := by
  simp only [queryStep]
  cases hfl : flatten_one (fetchO q.query).1 (fetchO q.query).2 q with
  | error e => exact h
  | ok rows =>
    dsimp only
    by_cases hb : cfg.batchSize ≤ (s.batch ++ rows.filter goodRow).length
    · rw [if_pos hb]
      rw [flushStep_errs]
      exact trackError_le h
    · rw [if_neg hb]
      exact trackError_le h

theorem runLoop_errs (fetchO : String → PyVal × String) (w : Nat → Bool)
    (cfg : RunConfig) : ∀ (qs : List QueryDesc) (s : LoopState),
    s.stats.errorsSample.length ≤ 5 →
    (resState (runLoop fetchO w cfg qs s)).stats.errorsSample.length ≤ 5 := by
  intro qs
  induction qs with
  | nil => intro s h; exact h
  | cons q rest ih =>
    intro s h
    unfold runLoop
    cases hq : queryStep fetchO w cfg q s with
    | error e =>
      have := queryStep_errs fetchO w cfg q s h
      rw [hq] at this
      exact this
    | ok s1 =>
      have h1 := queryStep_errs fetchO w cfg q s h
      rw [hq] at h1
      exact ih s1 h1

theorem run_err_stats {fetchO : String → PyVal × String} {w : Nat → Bool}
    {locs : List Location} {keys : List String} {cfg : RunConfig}
    {initFile : List Line} {pe : PipeErr} {sE : LoopState}
    (h : run_pipeline_streaming fetchO w locs keys cfg initFile = .error (pe, sE)) :
    sE.stats.errorsSample.length ≤ 5 := by
  simp only [run_pipeline_streaming] at h
  have h0 : (⟨[], !initFile.isEmpty, initFile, ⟨0, 0, 0, 0, []⟩, 0⟩ :
      LoopState).stats.errorsSample.length ≤ 5 := by simp
  cases hrl : runLoop fetchO w cfg
      (iter_queries locs keys cfg.maxLocations cfg.maxKeywords cfg.maxQueries)
      ⟨[], !initFile.isEmpty, initFile, ⟨0, 0, 0, 0, []⟩, 0⟩ with
  | error e =>
    rw [hrl] at h
    dsimp only at h
    simp only [Except.error.injEq] at h
    have h1 := runLoop_errs fetchO w cfg
      (iter_queries locs keys cfg.maxLocations cfg.maxKeywords cfg.maxQueries)
      ⟨[], !initFile.isEmpty, initFile, ⟨0, 0, 0, 0, []⟩, 0⟩ h0
    rw [hrl, h] at h1
    exact h1
  | ok s1 =>
    rw [hrl] at h
    dsimp only at h
    have h1 := runLoop_errs fetchO w cfg
      (iter_queries locs keys cfg.maxLocations cfg.maxKeywords cfg.maxQueries)
      ⟨[], !initFile.isEmpty, initFile, ⟨0, 0, 0, 0, []⟩, 0⟩ h0
    rw [hrl] at h1
    cases hff : finalFlush w s1 with
    | error e2 =>
      rw [hff] at h
      dsimp only at h
      simp only [Except.error.injEq] at h
      have h2 := finalFlush_errs w s1
      rw [hff, h] at h2
      have h3 : sE.stats.errorsSample = s1.stats.errorsSample := h2
      rw [h3]
      exact h1
    | ok s2 =>
      rw [hff] at h
      simp at h

theorem run_ok_stats {fetchO : String → PyVal × String} {w : Nat → Bool}
    {locs : List Location} {keys : List String} {cfg : RunConfig}
    {initFile : List Line} {st : RunStats} {f : List Line}
    (h : run_pipeline_streaming fetchO w locs keys cfg initFile = .ok (st, f)) :
    st.errorsSample.length ≤ 5 := by
  simp only [run_pipeline_streaming] at h
  have h0 : (⟨[], !initFile.isEmpty, initFile, ⟨0, 0, 0, 0, []⟩, 0⟩ :
      LoopState).stats.errorsSample.length ≤ 5 := by simp
  cases hrl : runLoop fetchO w cfg
      (iter_queries locs keys cfg.maxLocations cfg.maxKeywords cfg.maxQueries)
      ⟨[], !initFile.isEmpty, initFile, ⟨0, 0, 0, 0, []⟩, 0⟩ with
  | error e =>
    rw [hrl] at h
    dsimp only at h
    simp at h
  | ok s1 =>
    rw [hrl] at h
    dsimp only at h
    have h1 := runLoop_errs fetchO w cfg
      (iter_queries locs keys cfg.maxLocations cfg.maxKeywords cfg.maxQueries)
      ⟨[], !initFile.isEmpty, initFile, ⟨0, 0, 0, 0, []⟩, 0⟩ h0
    rw [hrl] at h1
    cases hff : finalFlush w s1 with
    | error e2 =>
      rw [hff] at h
      simp at h
    | ok s2 =>
      rw [hff] at h
      dsimp only at h
      simp only [Except.ok.injEq, Prod.mk.injEq] at h
      have h2 := finalFlush_errs w s1
      rw [hff] at h2
      have h3 : s2.stats.errorsSample = s1.stats.errorsSample := h2
      rw [← h.1, h3]
      exact h1

/-- Claim C8 (counterexample): a concrete run in which two queries fail
with the same transport error message ends with
`errors_sample = ["boom", "boom"]` — lines 380-383 append the first error
message of every failing query while fewer than 5 samples are stored, with
no distinctness check, so `errors_sample` does contain duplicate
messages. -/
theorem c8_counterexample_duplicate_error_messages :
    (resultStats (run_pipeline_streaming (fun _ => (errorPayload "boom", "Bearer Token"))
      (fun _ => true) [⟨"10,20,5km", "X"⟩] ["a", "b"]
      ⟨200, none, none, none⟩ [])).errorsSample = ["boom", "boom"] ∧
    ¬ (List.Nodup (resultStats (run_pipeline_streaming
      (fun _ => (errorPayload "boom", "Bearer Token"))
      (fun _ => true) [⟨"10,20,5km", "X"⟩] ["a", "b"]
      ⟨200, none, none, none⟩ [])).errorsSample) := by
  constructor
  · rfl
  · intro hnd
    rw [show (resultStats (run_pipeline_streaming
      (fun _ => (errorPayload "boom", "Bearer Token"))
      (fun _ => true) [⟨"10,20,5km", "X"⟩] ["a", "b"]
      ⟨200, none, none, none⟩ [])).errorsSample = ["boom", "boom"] from rfl] at hnd
    simp at hnd

/-- Claim C8 (amended): during a run `errors_sample` holds at most the
first 5 error messages encountered (each truncated to 120 characters) —
its length never exceeds 5 — but the messages are not deduplicated, so it
can contain the same message more than once. -/
theorem c8_amended_errors_sample_bounded :
    ∀ (fetchO : String → PyVal × String) (writeOk : Nat → Bool)
      (locations : List Location) (keywords : List String) (cfg : RunConfig)
      (initFile : List Line),
      (resultStats (run_pipeline_streaming fetchO writeOk locations keywords cfg
        initFile)).errorsSample.length ≤ 5 := by
  intro fetchO w locs keys cfg initFile
  cases hr : run_pipeline_streaming fetchO w locs keys cfg initFile with
  | error e =>
    obtain ⟨pe, sE⟩ := e
    show sE.stats.errorsSample.length ≤ 5
    exact run_err_stats hr
  | ok v =>
    obtain ⟨st, f⟩ := v
    show st.errorsSample.length ≤ 5
    exact run_ok_stats hr
